import Mathlib

/-! The `run` command of gf-cli: watch, debounce, build, restart.

A shallow embedding of `commands/run/run.go` together with the properties of
its watch filter, debounce timer and process supervision.

The Go standard library and the `gf` framework packages used by the file
(`regexp`, `gtimer`, `os/exec`, `mlog`) are not part of the file; they are
represented here by small explicit models, each documented where it is
defined.
-/

namespace GfRun

/-! ## The `regexp` package -/

/-- The part of Go's `regexp` package used by `run.go`: `regexp.Compile`
(`none` stands for a non-nil error) and `(*Regexp).MatchString`. -/
structure RegexpLib where
  Regexp : Type
  Compile : String → Option Regexp
  MatchString : Regexp → String → Bool

/-- Abstract syntax of the modelled fragment of Go (RE2) regular expressions. -/
inductive RE where
  | empty : RE
  | lit : Char → RE
  | anyNotNL : RE
  | beginText : RE
  | endText : RE
  | cat : RE → RE → RE
  | alt : RE → RE → RE
  | star : RE → RE
  | plus : RE → RE
  | quest : RE → RE
  | group : RE → RE
  deriving Repr, DecidableEq

/-- One level of the parse stack: the finished alternatives of the current
group and the items of the concatenation being read, both most recent first. -/
structure Frame where
  alts : List RE
  cur : List RE
  deriving Repr

/-- Concatenation of items given most recent first. -/
def catOf : List RE → RE
  | [] => RE.empty
  | [r] => r
  | r :: rs => RE.cat (catOf rs) r

/-- Alternation of branches given most recent first. -/
def altOf : List RE → RE
  | [] => RE.empty
  | [r] => r
  | r :: rs => RE.alt (altOf rs) r

/-- The expression denoted by a finished frame. -/
def Frame.close (f : Frame) : RE :=
  altOf (catOf f.cur :: f.alts)

/-- Go's `isalnum`. -/
def isalnum (c : Char) : Bool :=
  (48 ≤ c.toNat && c.toNat ≤ 57) || (65 ≤ c.toNat && c.toNat ≤ 90) ||
    (97 ≤ c.toNat && c.toNat ≤ 122)

/-- Apply a repetition operator (star, plus or question mark) to the most
recent item of the frame; `none` when there is nothing to repeat. -/
def Frame.repeatLast (f : Frame) (op : RE → RE) : Option Frame :=
  match f.cur with
  | [] => none
  | r :: rs => some { f with cur := op r :: rs }

/-- Push an item on the concatenation being read. -/
def Frame.push (f : Frame) (r : RE) : Frame :=
  { f with cur := r :: f.cur }

/-- The parse loop of `regexp/syntax.Parse` (Perl flags) restricted to the
fragment: literals, `.`, `^`, `$`, `|`, capturing groups, the operators
`*`, `+`, `?` with their lazy forms, and backslash followed by ASCII
punctuation.  `rep` is 0 when the previous token was not a repetition, 1 right
after a repetition operator (a following `?` marks it lazy) and 2 after the
lazy marker.  The result is `none` where Go reports a syntax error (missing or
unexpected parenthesis, missing repetition argument, nested repetition,
trailing backslash) and also for syntax outside the fragment (classes `[`,
counted repetition, `(?` groups, backslash followed by a letter or digit). -/
def parseLoop : List Char → Frame → List Frame → Nat → Option RE
  | [], f, stack, _ =>
    match stack with
    | [] => some f.close
    | _ :: _ => none
  | '\\' :: [], _, _, _ => none
  | '\\' :: e :: u, f, stack, _ =>
    if e.toNat < 128 && !isalnum e then parseLoop u (f.push (RE.lit e)) stack 0
    else none
  | c :: t, f, stack, rep =>
    if c = '(' then
      if t.head? = some '?' then none
      else parseLoop t ⟨[], []⟩ (f :: stack) 0
    else if c = ')' then
      match stack with
      | [] => none
      | p :: ps => parseLoop t (p.push (RE.group f.close)) ps 0
    else if c = '|' then
      parseLoop t ⟨catOf f.cur :: f.alts, []⟩ stack 0
    else if c = '*' then
      if rep ≠ 0 then none else
      match f.repeatLast RE.star with
      | none => none
      | some g => parseLoop t g stack 1
    else if c = '+' then
      if rep ≠ 0 then none else
      match f.repeatLast RE.plus with
      | none => none
      | some g => parseLoop t g stack 1
    else if c = '?' then
      if rep = 1 then parseLoop t f stack 2
      else if rep ≠ 0 then none else
      match f.repeatLast RE.quest with
      | none => none
      | some g => parseLoop t g stack 1
    else if c = '.' then parseLoop t (f.push RE.anyNotNL) stack 0
    else if c = '^' then parseLoop t (f.push RE.beginText) stack 0
    else if c = '$' then parseLoop t (f.push RE.endText) stack 0
    else if c = '[' then none
    else if c = '\x7b' then none
    else parseLoop t (f.push (RE.lit c)) stack 0

/-- Positions reachable by repeating a one-step matcher `f`, starting at `i`;
only strictly advancing repetitions are followed, `fuel` bounds their number. -/
def starEnds (f : Nat → List Nat) : Nat → Nat → List Nat
  | 0, i => [i]
  | fuel + 1, i => i :: ((f i).filter (fun j => i < j)).flatMap (starEnds f fuel)

/-- The end positions `j` such that the expression matches the text `w`
between positions `i` and `j`. -/
def RE.ends (w : List Char) : RE → Nat → List Nat
  | RE.empty, i => [i]
  | RE.lit c, i => if w[i]? = some c then [i + 1] else []
  | RE.anyNotNL, i =>
    match w[i]? with
    | some c => if c = '\n' then [] else [i + 1]
    | none => []
  | RE.beginText, i => if i = 0 then [i] else []
  | RE.endText, i => if i = w.length then [i] else []
  | RE.cat a b, i => (a.ends w i).flatMap (b.ends w)
  | RE.alt a b, i => a.ends w i ++ b.ends w i
  | RE.star a, i => starEnds (a.ends w) w.length i
  | RE.plus a, i => (a.ends w i).flatMap (starEnds (a.ends w) w.length)
  | RE.quest a, i => i :: a.ends w i
  | RE.group a, i => a.ends w i

/-- Unanchored search: the expression matches some substring of the text. -/
def RE.search (r : RE) (w : List Char) : Bool :=
  (List.range (w.length + 1)).any (fun i => !(r.ends w i).isEmpty)

/-- Model of Go's `regexp` on the fragment described at `parseLoop`.  Without
flags `$` is end of text, `^` is start of text and `.` is any character but
newline.  Texts are sequences of Unicode characters (valid UTF-8). -/
def goRegexp : RegexpLib where
  Regexp := RE
  Compile := fun p => parseLoop p.toList ⟨[], []⟩ [] 0
  MatchString := fun r s => r.search s.toList

/-! ## Data model of `run.go` -/

/-- The fields of `exec.Cmd` the file relies on.  `id` stands for the identity
of the allocated object, `Process` is nil until the command has been started. -/
structure Cmd where
  id : Nat
  Path : String
  Process : Option Nat
  deriving Repr, DecidableEq

/-- The struct `App`.  `CMD` is the pointer to the command of the running
instance, `Timer` the pointer to the pending `gtimer.Entry` (its index in the
timer wheel).  The `Locker` field is not represented: `Build` is executed as
one atomic step, which is what holding the lock provides between builds. -/
structure App where
  Name : String
  Path : String
  FullPath : String
  BuildTags : String
  CMD : Option Cmd
  Timer : Option Nat
  WatchList : List String
  UnWatchList : List String
  deriving Repr, DecidableEq

/-- The function `New`. -/
def New : App where
  Name := ""
  Path := ""
  FullPath := ""
  BuildTags := ""
  CMD := none
  Timer := none
  WatchList := ["(.go)$"]
  UnWatchList := ["(.js|.html|.bat|.txt|.md|.exe|.exe~)$"]

/-- The loop of `App.IsUnwatch` over the remaining patterns. -/
def isUnwatchLoop (lib : RegexpLib) (filename : String) : List String → Bool
  | [] => false
  | regex :: rest =>
    match lib.Compile regex with
    | none => false
    | some r => if lib.MatchString r filename then true else isUnwatchLoop lib filename rest

/-- The method `App.IsUnwatch`. -/
def App.IsUnwatch (lib : RegexpLib) (app : App) (filename : String) : Bool :=
  isUnwatchLoop lib filename app.UnWatchList

/-- The loop of `App.IsWatch` over the remaining patterns. -/
def isWatchLoop (lib : RegexpLib) (filename : String) : List String → Bool
  | [] => false
  | regex :: rest =>
    match lib.Compile regex with
    | none => false
    | some r => if lib.MatchString r filename then true else isWatchLoop lib filename rest

/-- The method `App.IsWatch`. -/
def App.IsWatch (lib : RegexpLib) (app : App) (filename : String) : Bool :=
  isWatchLoop lib filename app.WatchList

/-- A `gfsnotify.Event`: the path and the operation bits tested by the handler. -/
structure Event where
  Path : String
  IsCreate : Bool
  IsWrite : Bool
  IsRemove : Bool
  IsRename : Bool
  IsChmod : Bool
  deriving Repr, DecidableEq

/-- An entry of the `gtimer` wheel created by `AddOnce`: the time (in
milliseconds) for which it was armed, that is the arming time plus the
interval, and whether its status is closed (cancelled by `Close`, or already
run).  When the wheel actually runs an open entry is not fixed by `due`: the
wheel works in slots and may run the job somewhat before or after. -/
structure Entry where
  due : Nat
  closed : Bool
  deriving Repr, DecidableEq

/-- Observable actions: one constructor per `mlog` call site of the file and
per interaction with the operating system. -/
inductive Action where
  | logEvent (kind : String) (path : String)
  | logBuild (name : String)
  | execBuild (cmdName : String) (args : List String) (env : String)
  | logBuildFailed (stderr : String)
  | logKill (name : String)
  | signalKill (pid : Nat)
  | fatal (msg : String)
  | logStart (name : String)
  | spawned (path : String) (pid : Nat)
  deriving Repr, DecidableEq

/-- Goroutines launched by a `go` statement that have not run yet:
`go app.Start()` and `go app.CMD.Run()` (for the command with the given
identity and path). -/
inductive Task where
  | start
  | run (cmd : Nat) (path : String)
  deriving Repr, DecidableEq

/-- The supervisor process and its surroundings: the app, the clock (ms), the
entries of the timer wheel, the instances spawned by the supervisor that are
still alive, those to which a kill signal has been delivered, the pending
goroutines, the number of handler calls that have passed the cancelling of the
old timer but not yet armed the new one, whether the supervisor has exited
through `mlog.Fatal`, and the actions performed so far with their times. -/
structure Sys where
  goos : String
  app : App
  now : Nat
  timers : List Entry
  alive : List Nat
  signalled : List Nat
  nextId : Nat
  tasks : List Task
  arming : Nat
  halted : Bool
  log : List (Nat × Action)
  deriving Repr, DecidableEq

/-- What the surroundings answer during one `Build`: whether `go build`
exits with status 0, the text it writes to standard error, and whether the
operating system refuses the kill signal for a live instance, should `Kill`
send one. -/
structure Outcome where
  buildOk : Bool
  stderr : String
  killDenied : Bool
  deriving Repr, DecidableEq

/-- Record an action at the current time. -/
def Sys.emit (s : Sys) (a : Action) : Sys :=
  { s with log := s.log ++ [(s.now, a)] }

/-- Modelled from the spec: `mlog.Fatal` of the package `library/mlog`, which
is not among the sources; the error is reported and the supervisor stops. -/
def Fatal (s : Sys) (msg : String) : Sys :=
  { s.emit (Action.fatal msg) with halted := true }

/-- Whether the first list starts with the second. -/
def startsWith : List Char → List Char → Bool
  | _, [] => true
  | [], _ :: _ => false
  | c :: cs, d :: ds => c = d && startsWith cs ds

/-- Whether the second list occurs in the first as a contiguous block. -/
def hasInfix : List Char → List Char → Bool
  | [], sub => sub.isEmpty
  | c :: cs, sub => startsWith (c :: cs) sub || hasInfix cs sub

/-- Go's `strings.Contains`, on texts that are valid UTF-8. -/
def Contains (s substr : String) : Bool :=
  hasInfix s.toList substr.toList

/-- The error of `Process.Kill` for a process that has exited and has been
waited for: `os.ErrProcessDone` on Unix systems; on Windows, in the Go
releases the file dates from, `Wait` releases the handle and the error is
`EINVAL`, the string the code compares with. -/
def doneError (goos : String) : String :=
  if goos = "windows" then "invalid argument" else "os: process already finished"

/-- The error of `Process.Kill` when the operating system refuses the signal. -/
def deniedError (goos : String) : String :=
  if goos = "windows" then "Access is denied." else "operation not permitted"

/-- Go's `os.Process.Kill` on the process `pid`.  For a process that has
exited (the goroutine of `CMD.Run` has waited for it) the error is
`doneError`.  For a live process the signal is sent unless the system refuses
it; `Kill` returns at once and does not wait for the process to exit, so the
process stays among the live ones until it has died. -/
def ProcessKill (s : Sys) (pid : Nat) (denied : Bool) : Sys × Option String :=
  if pid ∈ s.alive then
    if denied then (s, some (deniedError s.goos))
    else ({ s with signalled := s.signalled ++ [pid] }, none)
  else (s, some (doneError s.goos))

/-- The part of `App.Kill` that follows `err := app.CMD.Process.Kill()`. -/
def killBranch (s : Sys) (err : Option String) : Sys :=
  match err with
  | some e =>
    if e = "invalid argument" then { s with app := { s.app with CMD := none } }
    else Fatal s ("Kill error:" ++ e)
  | none => { s with app := { s.app with CMD := none } }

/-- The method `App.Kill`; `denied` tells whether the system refuses the
signal.  The deferred `recover` has no counterpart here: `Process.Kill`
reports failure through its error, and `mlog.Fatal` ends the process without a
panic. -/
def App.Kill (s : Sys) (denied : Bool) : Sys :=
  match s.app.CMD with
  | none => s
  | some c =>
    match c.Process with
    | none => s
    | some pid =>
      let r := ProcessKill ((s.emit (Action.logKill s.app.Name)).emit (Action.signalKill pid))
        pid denied
      killBranch r.1 r.2

/-- The method `App.Start`: the command is created and stored, and
`go app.CMD.Run()` is launched for it. -/
def App.Start (s : Sys) : Sys :=
  let s1 := s.emit (Action.logStart s.app.Name)
  let appname := if !Contains s.app.Name "./" then "./" ++ s.app.Name else s.app.Name
  let c : Cmd := { id := s1.nextId, Path := appname, Process := none }
  { s1 with
    app := { s1.app with CMD := some c }
    nextId := s1.nextId + 1
    tasks := s1.tasks ++ [Task.run c.id c.Path] }

/-- The method `App.Restart`: `Kill` runs to its end, then `go app.Start()`
is launched unless `Kill` ended the supervisor. -/
def App.Restart (s : Sys) (denied : Bool) : Sys :=
  let s1 := App.Kill s denied
  if s1.halted then s1 else { s1 with tasks := s1.tasks ++ [Task.start] }

/-- The argument list `args` that `App.Build` passes to the build tool. -/
def buildArgs (goos : String) (app : App) : List String :=
  let appname := if goos = "windows" then app.Name ++ ".exe" else app.Name
  ["build", "-o", appname] ++ (if app.BuildTags ≠ "" then ["-tags", app.BuildTags] else [])

/-- The method `App.Build`. -/
def App.Build (s : Sys) (o : Outcome) : Sys :=
  let s1 := s.emit (Action.logBuild s.app.Name)
  let s2 := s1.emit (Action.execBuild "go" (buildArgs s.goos s.app) "GOGC=off")
  if !o.buildOk then s2.emit (Action.logBuildFailed o.stderr)
  else App.Restart s2 o.killDenied

/-- The `exec.Cmd.Run` of a launched command: when the fork succeeds the
instance is alive under a fresh pid, which is stored in the command if the
app still points to it. -/
def CmdRun (s : Sys) (cmd : Nat) (path : String) (ok : Bool) : Sys :=
  if !ok then s else
  let pid := s.nextId
  let s1 := { s.emit (Action.spawned path pid) with
    alive := s.alive ++ [pid], nextId := s.nextId + 1 }
  match s1.app.CMD with
  | some c =>
    if c.id = cmd then { s1 with app := { s1.app with CMD := some { c with Process := some pid } } }
    else s1
  | none => s1

/-- The text printed by the handler for the kind of an event. -/
def Event.kind (e : Event) : String :=
  if e.IsCreate then "create file:"
  else if e.IsWrite then "write file:"
  else if e.IsRemove then "remove file:"
  else if e.IsRename then "rename file:"
  else if e.IsChmod then "chmod file:"
  else ""

/-- The method `Entry.Close` of `gtimer` on the entry with index `i`. -/
def closeEntry (timers : List Entry) (i : Nat) : List Entry :=
  timers.modify (fun e => { e with closed := true }) i

/-- The callback registered with `gfsnotify.Add` in `Run`, run from its
first to its last statement without another callback in between;
`time.Second` is 1000 ms. -/
def handler (lib : RegexpLib) (s : Sys) (event : Event) : Sys :=
  if s.app.IsUnwatch lib event.Path then s
  else if !s.app.IsWatch lib event.Path then s
  else
    let s1 := s.emit (Action.logEvent event.kind event.Path)
    let s2 : Sys :=
      match s1.app.Timer with
      | some i => { s1 with timers := closeEntry s1.timers i, app := { s1.app with Timer := none } }
      | none => s1
    { s2 with
      timers := s2.timers ++ [{ due := s2.now + 1000, closed := false }]
      app := { s2.app with Timer := some s2.timers.length } }

/-- The callback up to and including the cancelling of the old timer (the
filters, the log line, `Close` and `app.Timer = nil`); the callback then
stands before `gtimer.AddOnce`.  The callbacks hold no lock, and `gfsnotify`
runs each in a goroutine of its own. -/
def handlerHead (lib : RegexpLib) (s : Sys) (event : Event) : Sys :=
  if s.app.IsUnwatch lib event.Path then s
  else if !s.app.IsWatch lib event.Path then s
  else
    let s1 := s.emit (Action.logEvent event.kind event.Path)
    let s2 : Sys :=
      match s1.app.Timer with
      | some i => { s1 with timers := closeEntry s1.timers i, app := { s1.app with Timer := none } }
      | none => s1
    { s2 with arming := s2.arming + 1 }

/-- The last statement of a callback that stands before it:
`app.Timer = gtimer.AddOnce(time.Second, ...)`. -/
def handlerTail (s : Sys) : Sys :=
  if s.arming = 0 then s else
  { s with
    arming := s.arming - 1
    timers := s.timers ++ [{ due := s.now + 1000, closed := false }]
    app := { s.app with Timer := some s.timers.length } }

/-- The timer wheel runs entry `i` at the present time: nothing happens when
the entry is closed; otherwise the entry, created by `AddOnce`, is closed by
its single run and its job `app.Build()` is executed. -/
def expire (s : Sys) (i : Nat) (o : Outcome) : Sys :=
  match s.timers[i]? with
  | none => s
  | some e =>
    if e.closed then s
    else App.Build { s with timers := closeEntry s.timers i } o

/-- The scheduler runs the pending goroutine with index `k`. -/
def runTask (s : Sys) (k : Nat) (ok : Bool) : Sys :=
  match s.tasks[k]? with
  | none => s
  | some t =>
    let s1 := { s with tasks := s.tasks.eraseIdx k }
    match t with
    | Task.start => App.Start s1
    | Task.run cmd path => CmdRun s1 cmd path ok

/-- What can happen after `Run` has set up the watch and parked in `select`:
the clock reaches a time; a file-system notification whose callback runs as a
whole; the first part of a callback, and the last statement of a callback that
stands before it; the wheel runs a timer entry; the scheduler runs a pending
goroutine (with whether its fork succeeds); an instance exits and is waited
for. -/
inductive Ev where
  | clock (t : Nat)
  | notify (event : Event)
  | notifyHead (event : Event)
  | notifyTail
  | expire (i : Nat) (o : Outcome)
  | go (k : Nat) (ok : Bool)
  | exit (pid : Nat)
  deriving Repr, DecidableEq

/-- One step of the supervisor; nothing happens once it has exited. -/
def step (lib : RegexpLib) (s : Sys) (ev : Ev) : Sys :=
  if s.halted then s else
  match ev with
  | Ev.clock t => { s with now := max s.now t }
  | Ev.notify event => handler lib s event
  | Ev.notifyHead event => handlerHead lib s event
  | Ev.notifyTail => handlerTail s
  | Ev.expire i o => expire s i o
  | Ev.go k ok => runTask s k ok
  | Ev.exit pid => { s with alive := s.alive.erase pid }

/-- The state in which `Run` calls `gfsnotify.Add`: a new app with the
working directory `cwd` as path and `name`, the result of `filepath.Base`. -/
def boot (goos cwd name : String) : Sys where
  goos := goos
  app := { New with Path := cwd, Name := name }
  now := 0
  timers := []
  alive := []
  signalled := []
  nextId := 0
  tasks := []
  arming := 0
  halted := false
  log := []

/-- The function `Run` up to `select`: a failure of `gfsnotify.Add` is fatal,
otherwise the first `Build` is performed. -/
def Run (goos cwd name : String) (watchErr : Option String) (o : Outcome) : Sys :=
  match watchErr with
  | some e => Fatal (boot goos cwd name) e
  | none => App.Build (boot goos cwd name) o

/-- The state after a sequence of steps. -/
def run (lib : RegexpLib) (s : Sys) (evs : List Ev) : Sys :=
  evs.foldl (step lib) s

/-- A notification at time `te.1` whose callback runs as a whole. -/
def deliver (lib : RegexpLib) (s : Sys) (te : Nat × Event) : Sys :=
  step lib (step lib s (Ev.clock te.1)) (Ev.notify te.2)

/-- The notifications `evs`, each with its time, handled one after the other
with no timer expiry in between. -/
def burst (lib : RegexpLib) (s : Sys) (evs : List (Nat × Event)) : Sys :=
  evs.foldl (deliver lib) s

/-- A qualifying path: it passes the watch filter and is not ignored. -/
def qualifies (lib : RegexpLib) (app : App) (path : String) : Bool :=
  app.IsWatch lib path && !app.IsUnwatch lib path

/-- A timer expiry is orderly when the goroutines launched by the previous
restart have all run. -/
def orderly (s : Sys) : Ev → Bool
  | Ev.expire _ _ => s.tasks.isEmpty
  | _ => true

/-- Every timer expiry of the run is orderly in the state it happens in. -/
def sequential (lib : RegexpLib) : Sys → List Ev → Bool
  | _, [] => true
  | s, ev :: evs => orderly s ev && sequential lib (step lib s ev) evs

/-- The live instances to which no kill signal has been delivered. -/
def unsignalled (s : Sys) : List Nat :=
  s.alive.filter (fun p => decide (p ∉ s.signalled))

/-! ## Vocabulary of the statements -/

/-- The pattern compiles. -/
def compiles (lib : RegexpLib) (p : String) : Bool :=
  (lib.Compile p).isSome

/-- The pattern compiles and its expression matches the file name. -/
def matchesPattern (lib : RegexpLib) (filename : String) (p : String) : Bool :=
  match lib.Compile p with
  | some r => lib.MatchString r filename
  | none => false

/-- The times at which `Build` was entered, in order. -/
def buildTimes : List (Nat × Action) → List Nat
  | [] => []
  | (t, Action.logBuild _) :: l => t :: buildTimes l
  | _ :: l => buildTimes l

/-- The pids to which a kill signal was sent, in order. -/
def killsOf : List (Nat × Action) → List Nat
  | [] => []
  | (_, Action.signalKill pid) :: l => pid :: killsOf l
  | _ :: l => killsOf l

/-- The pid of the instance the app holds a started command for. -/
def App.instance? (app : App) : Option Nat :=
  match app.CMD with
  | some c => c.Process
  | none => none

/-! ## States and expressions used in the statements -/

/-- A project whose ignore list starts with a pattern that does not compile. -/
def badIgnoreSys : Sys :=
  { boot "linux" "/proj" "proj" with
    app := { New with
      Name := "proj", Path := "/proj",
      WatchList := ["(.go|.md)$"], UnWatchList := ["(", "(.md)$"] } }

/-- A write to the README of the project. -/
def readmeWrite : Event :=
  { Path := "/proj/README.md", IsCreate := false, IsWrite := true, IsRemove := false,
    IsRename := false, IsChmod := false }

/-- The expression to which the default watch pattern compiles. -/
def defaultWatchRE : RE :=
  RE.cat (RE.group (RE.cat (RE.cat RE.anyNotNL (RE.lit 'g')) (RE.lit 'o'))) RE.endText

/-- The launch of the build tool, as logged by `Build`. -/
def buildActs (s : Sys) : List (Nat × Action) :=
  [(s.now, Action.logBuild s.app.Name),
   (s.now, Action.execBuild "go" (buildArgs s.goos s.app) "GOGC=off")]

/-- What `Kill` logs before looking at the result of the signal. -/
def killActs (s : Sys) : List (Nat × Action) :=
  match s.app.instance? with
  | some pid => [(s.now, Action.logKill s.app.Name), (s.now, Action.signalKill pid)]
  | none => []

/-- A supervisor whose instance with pid 1 is running. -/
def runningSys : Sys :=
  { boot "linux" "/proj" "proj" with
    app := { New with
      Name := "proj", Path := "/proj",
      CMD := some { id := 0, Path := "./proj", Process := some 1 } }
    now := 5000
    alive := [1]
    nextId := 2 }

/-- The supervisor of `runningSys` after its instance has exited on its own. -/
def exitedSys : Sys :=
  { runningSys with alive := [] }

/-- A write to the main source file of the project. -/
def mainWrite : Event :=
  { Path := "/proj/main.go", IsCreate := false, IsWrite := true, IsRemove := false,
    IsRename := false, IsChmod := false }

/-- The supervisor after a successful first build and one write to main.go,
1000 ms later: the timer entry 0 is pending. -/
def pendingSys : Sys :=
  run goRegexp (Run "linux" "/proj" "proj" none ⟨true, "", false⟩)
    [Ev.notify mainWrite, Ev.clock 1000]

/-- Every open entry of the wheel is the one `Timer` points to. -/
def OnlyPending (s : Sys) : Prop :=
  ∀ (j : Nat) (e : Entry), s.timers[j]? = some e → e.closed = false → s.app.Timer = some j

/-- The state right after a qualifying notification whose callback has run as
a whole: the supervisor runs, and the only open entry is the one just armed
for 1000 ms later. -/
def Armed (s : Sys) : Prop :=
  s.halted = false ∧ OnlyPending s ∧
    ∃ i, s.app.Timer = some i ∧ s.timers[i]? = some { due := s.now + 1000, closed := false }

/-- The shapes a sequentially driven supervisor can be in, `u` being the live
instances without a kill signal: nothing pending and `u` empty; nothing
pending and `u` the one instance of the app's command; a `Start` pending and
`u` empty; the `Run` of the app's command pending and `u` empty. -/
def Single (s : Sys) : Prop :=
  (s.tasks = [] ∧ unsignalled s = []) ∨
  (s.tasks = [] ∧ ∃ (pid : Nat) (c : Cmd),
    unsignalled s = [pid] ∧ s.app.CMD = some c ∧ c.Process = some pid) ∨
  (s.tasks = [Task.start] ∧ unsignalled s = []) ∨
  (∃ c : Cmd, s.tasks = [Task.run c.id c.Path] ∧ s.app.CMD = some c ∧ unsignalled s = [])

/-- The pids handed out so far are below `nextId`, and no pid is alive twice. -/
def PidsFresh (s : Sys) : Prop :=
  (∀ p ∈ s.alive, p < s.nextId) ∧ (∀ p ∈ s.signalled, p < s.nextId) ∧ s.alive.Nodup

/-! ## The watch filter -/

theorem isWatchLoop_eq (lib : RegexpLib) (filename : String) (l : List String) :
    isWatchLoop lib filename l =
      (l.takeWhile (compiles lib)).any (matchesPattern lib filename) := by
  induction l with
  | nil => rfl
  | cons p rest ih =>
    unfold isWatchLoop
    cases h : lib.Compile p with
    | none => simp [List.takeWhile, compiles, h]
    | some r =>
      by_cases hm : lib.MatchString r filename = true
      · simp [List.takeWhile, compiles, matchesPattern, h, hm]
      · simp [List.takeWhile, compiles, matchesPattern, h, hm, ih]

theorem isUnwatchLoop_eq (lib : RegexpLib) (filename : String) (l : List String) :
    isUnwatchLoop lib filename l =
      (l.takeWhile (compiles lib)).any (matchesPattern lib filename) := by
  induction l with
  | nil => rfl
  | cons p rest ih =>
    unfold isUnwatchLoop
    cases h : lib.Compile p with
    | none => simp [List.takeWhile, compiles, h]
    | some r =>
      by_cases hm : lib.MatchString r filename = true
      · simp [List.takeWhile, compiles, matchesPattern, h, hm]
      · simp [List.takeWhile, compiles, matchesPattern, h, hm, ih]

theorem isUnwatchLoop_of_match (lib : RegexpLib) (filename : String)
    (pre : List String) (p : String) (post : List String)
    (hpre : ∀ q ∈ pre, compiles lib q = true)
    (hp : matchesPattern lib filename p = true) :
    isUnwatchLoop lib filename (pre ++ p :: post) = true := by
  induction pre with
  | nil =>
    unfold matchesPattern at hp
    simp only [List.nil_append]
    unfold isUnwatchLoop
    cases h : lib.Compile p with
    | none => simp [h] at hp
    | some r => simp [h] at hp; simp [hp]
  | cons q qs ih =>
    have hq := hpre q (List.mem_cons_self q qs)
    have ih2 := ih (fun x hx => hpre x (List.mem_cons_of_mem q hx))
    simp only [List.cons_append]
    unfold isUnwatchLoop
    cases h : lib.Compile q with
    | none => simp [compiles, h] at hq
    | some r =>
      by_cases hm : lib.MatchString r filename = true
      · simp [hm]
      · simp [hm, ih2]

/-- C7 (as amended): `IsWatch` and `IsUnwatch` never fail, and each scans
its list only up to the first pattern that does not compile: the result is
true exactly when one of the patterns standing before the first non-compiling
pattern matches the file name. -/
theorem IsWatch_IsUnwatch_scan_until_bad_pattern (lib : RegexpLib) (app : App)
    (filename : String) :
    App.IsWatch lib app filename =
        (app.WatchList.takeWhile (compiles lib)).any (matchesPattern lib filename) ∧
      App.IsUnwatch lib app filename =
        (app.UnWatchList.takeWhile (compiles lib)).any (matchesPattern lib filename) :=
  ⟨isWatchLoop_eq lib filename app.WatchList, isUnwatchLoop_eq lib filename app.UnWatchList⟩

/-- C7 (counterexample): with the watch list "(" , "go$" the first pattern does
not compile and `IsWatch` answers false for main.go, while on the list with
the non-compiling pattern removed it answers true; the same for `IsUnwatch`. -/
theorem IsWatch_differs_from_filtered_list :
    compiles goRegexp "(" = false ∧
      App.IsWatch goRegexp { New with WatchList := ["(", "go$"] } "main.go" ≠
        App.IsWatch goRegexp
          { New with WatchList := (["(", "go$"]).filter (compiles goRegexp) } "main.go" ∧
      App.IsUnwatch goRegexp { New with UnWatchList := ["(", "go$"] } "main.go" ≠
        App.IsUnwatch goRegexp
          { New with UnWatchList := (["(", "go$"]).filter (compiles goRegexp) } "main.go" := by
  decide

/-- C1 (as amended): when the path matches a pattern of the ignore list and
every pattern standing before it in the list compiles, the handler leaves the
whole state as it is (no timer closed or armed, no build scheduled, nothing
logged), whatever the watch list is. -/
theorem handler_ignores_unwatched (lib : RegexpLib) (s : Sys) (event : Event)
    (pre : List String) (p : String) (post : List String)
    (hlist : s.app.UnWatchList = pre ++ p :: post)
    (hpre : ∀ q ∈ pre, compiles lib q = true)
    (hp : matchesPattern lib event.Path p = true) :
    step lib s (Ev.notify event) = s := by
  have h : s.app.IsUnwatch lib event.Path = true := by
    unfold App.IsUnwatch
    rw [hlist]
    exact isUnwatchLoop_of_match lib event.Path pre p post hpre hp
  unfold step handler
  simp [h]

/-- C1 (counterexample): the path /proj/README.md matches the second pattern
of the ignore list, but the first pattern does not compile, so `IsUnwatch`
answers false and the handler arms the one-second timer. -/
theorem handler_actions_ignored_path :
    "(.md)$" ∈ badIgnoreSys.app.UnWatchList ∧
      matchesPattern goRegexp readmeWrite.Path "(.md)$" = true ∧
      (step goRegexp badIgnoreSys (Ev.notify readmeWrite)).timers =
        [{ due := 1000, closed := false }] ∧
      (step goRegexp badIgnoreSys (Ev.notify readmeWrite)).app.Timer = some 0 := by
  decide

/-- C1 (witness): with the default lists a write to /proj/a.html is ignored. -/
theorem handler_ignores_unwatched_witness :
    step goRegexp (boot "linux" "/proj" "proj")
      (Ev.notify { readmeWrite with Path := "/proj/a.html" }) = boot "linux" "/proj" "proj" :=
  handler_ignores_unwatched goRegexp (boot "linux" "/proj" "proj")
    { readmeWrite with Path := "/proj/a.html" } []
    "(.js|.html|.bat|.txt|.md|.exe|.exe~)$" [] rfl (by simp) (by decide)

/-- C10 (failing input): with the lists of `New`, `IsWatch` answers true for
the path /proj/cargo, which does not end in ".go": the dot of the default
pattern stands for any character. -/
theorem default_IsWatch_accepts_cargo :
    App.IsWatch goRegexp New "/proj/cargo" = true ∧
      List.isSuffixOf ".go".toList "/proj/cargo".toList = false := by
  decide

theorem default_watch_compiles : goRegexp.Compile "(.go)$" = some defaultWatchRE := rfl

theorem defaultWatchRE_ends (w : List Char) (i : Nat) :
    (defaultWatchRE.ends w i).isEmpty = false ↔
      ∃ c : Char, w[i]? = some c ∧ c ≠ '\n' ∧ w[i + 1]? = some 'g' ∧ w[i + 2]? = some 'o' ∧
        i + 3 = w.length := by
  simp only [defaultWatchRE, RE.ends]
  cases h0 : w[i]? with
  | none => simp
  | some c =>
    by_cases hc : c = '\n'
    · simp [hc]
    · by_cases h1 : w[i + 1]? = some 'g'
      · by_cases h2 : w[i + 1 + 1]? = some 'o'
        · have h2b : w[i + 2]? = some 'o' := h2
          by_cases h3 : i + 1 + 1 + 1 = w.length
          · simp [hc, h1, h2, h2b, h3]
          · simp [hc, h1, h2, h2b, h3]
        · have h2b : ¬ w[i + 2]? = some 'o' := h2
          simp [hc, h1, h2, h2b]
      · simp [hc, h1]

theorem defaultWatchRE_search (w : List Char) :
    defaultWatchRE.search w = true ↔
      ∃ (pre : List Char) (c : Char), w = pre ++ [c, 'g', 'o'] ∧ c ≠ '\n' := by
  simp only [RE.search, List.any_eq_true, List.mem_range, Bool.not_eq_true', defaultWatchRE_ends]
  constructor
  · rintro ⟨i, _, c, h0, hc, h1, h2, h3⟩
    refine ⟨w.take i, c, ?_, hc⟩
    have hd : w.drop i = [c, 'g', 'o'] := by
      apply List.ext_getElem?
      intro n
      rw [List.getElem?_drop]
      match n with
      | 0 => simpa using h0
      | 1 => simpa using h1
      | 2 => simpa using h2
      | n + 3 =>
        have : w.length ≤ i + (n + 3) := by omega
        simp [List.getElem?_eq_none_iff.2 this]
    rw [← hd, List.take_append_drop]
  · rintro ⟨pre, c, hp, hc⟩
    subst hp
    refine ⟨pre.length, by simp; omega, c, ?_, hc, ?_, ?_, by simp⟩
    · rw [List.getElem?_append_right (by omega)]; simp
    · rw [List.getElem?_append_right (by omega)]; simp
    · rw [List.getElem?_append_right (by omega)]; simp

/-- With the lists of `New`, `IsWatch` answers true exactly for the paths that end
in a character other than newline followed by "go"; in particular for every
path that ends in ".go". -/
theorem default_IsWatch_iff (path : String) :
    App.IsWatch goRegexp New path = true ↔
      ∃ (pre : List Char) (c : Char), path.toList = pre ++ [c, 'g', 'o'] ∧ c ≠ '\n' := by
  have h : App.IsWatch goRegexp New path = defaultWatchRE.search path.toList := by
    show (if defaultWatchRE.search path.toList = true then true else false) = _
    simp
  rw [h]
  exact defaultWatchRE_search path.toList

/-! ## Build, Kill, Restart, Start -/

theorem killsOf_append (l m : List (Nat × Action)) :
    killsOf (l ++ m) = killsOf l ++ killsOf m := by
  induction l with
  | nil => rfl
  | cons a l ih =>
    obtain ⟨t, a⟩ := a
    cases a <;> simp [killsOf, ih]

theorem buildTimes_append (l m : List (Nat × Action)) :
    buildTimes (l ++ m) = buildTimes l ++ buildTimes m := by
  induction l with
  | nil => rfl
  | cons a l ih =>
    obtain ⟨t, a⟩ := a
    cases a <;> simp [buildTimes, ih]

/-- C3: when the build tool fails, `Build` only logs: the state is the old
one with the three log lines added, so the handle `CMD`, the live instances
and the pending goroutines are untouched and no kill signal is sent. -/
theorem Build_failure_leaves_instance (s : Sys) (o : Outcome) (hfail : o.buildOk = false) :
    App.Build s o =
        { s with log := s.log ++ buildActs s ++ [(s.now, Action.logBuildFailed o.stderr)] } ∧
      (App.Build s o).app.CMD = s.app.CMD ∧
      (App.Build s o).alive = s.alive ∧
      (App.Build s o).tasks = s.tasks ∧
      (App.Build s o).halted = s.halted ∧
      killsOf (App.Build s o).log = killsOf s.log := by
  have h : App.Build s o =
      { s with log := s.log ++ buildActs s ++ [(s.now, Action.logBuildFailed o.stderr)] } := by
    simp [App.Build, hfail, Sys.emit, buildActs]
  refine ⟨h, ?_, ?_, ?_, ?_, ?_⟩ <;> rw [h]
  simp [killsOf_append, killsOf, buildActs]

/-- C3 (witness): a failing build in a state with a running instance. -/
theorem Build_failure_leaves_instance_witness :
    (App.Build runningSys ⟨false, "syntax error line 4", false⟩).app.CMD = runningSys.app.CMD ∧
      (App.Build runningSys ⟨false, "syntax error line 4", false⟩).alive = [1] :=
  ⟨(Build_failure_leaves_instance runningSys ⟨false, "syntax error line 4", false⟩ rfl).2.1,
    (Build_failure_leaves_instance runningSys ⟨false, "syntax error line 4", false⟩ rfl).2.2.1⟩

/-- The three branches of `Kill` on the error of `Process.Kill`: a nil error
and "invalid argument" clear the handle and report nothing; any other error
is reported as fatal, the supervisor stops and the handle is kept. -/
theorem killBranch_cases (s : Sys) (err : Option String) :
    ((err = none ∨ err = some "invalid argument") →
        killBranch s err = { s with app := { s.app with CMD := none } }) ∧
      (∀ e, err = some e → e ≠ "invalid argument" →
        killBranch s err = Fatal s ("Kill error:" ++ e)) := by
  constructor
  · rintro (h | h) <;> subst h <;> simp [killBranch]
  · intro e he hne
    subst he
    simp [killBranch, hne]

theorem Kill_of_instance (s : Sys) (denied : Bool) (pid : Nat)
    (hi : s.app.instance? = some pid) :
    App.Kill s denied =
      killBranch
        (ProcessKill ((s.emit (Action.logKill s.app.Name)).emit (Action.signalKill pid))
          pid denied).1
        (ProcessKill ((s.emit (Action.logKill s.app.Name)).emit (Action.signalKill pid))
          pid denied).2 := by
  unfold App.instance? at hi
  cases hc : s.app.CMD with
  | none => simp [hc] at hi
  | some c =>
    simp only [hc] at hi
    simp [App.Kill, hc, hi]

theorem Kill_of_no_instance (s : Sys) (denied : Bool) (hi : s.app.instance? = none) :
    App.Kill s denied = s := by
  unfold App.instance? at hi
  cases hc : s.app.CMD with
  | none => simp [App.Kill, hc]
  | some c =>
    simp only [hc] at hi
    simp [App.Kill, hc, hi]

/-- What `Kill` does when the app holds the command of an instance that has
exited on its own: on systems other than Windows the error of `Process.Kill`
is "os: process already finished", the fatal branch runs and the handle is
kept; on Windows the error is "invalid argument" and the handle is cleared. -/
theorem Kill_exited_instance (s : Sys) (denied : Bool) (pid : Nat)
    (hi : s.app.instance? = some pid) (hx : pid ∉ s.alive) :
    (s.goos ≠ "windows" →
        (App.Kill s denied).halted = true ∧ (App.Kill s denied).app.CMD = s.app.CMD ∧
        (App.Kill s denied).log =
          s.log ++ [(s.now, Action.logKill s.app.Name), (s.now, Action.signalKill pid),
            (s.now, Action.fatal "Kill error:os: process already finished")]) ∧
      (s.goos = "windows" →
        (App.Kill s denied).halted = s.halted ∧ (App.Kill s denied).app.CMD = none) := by
  rw [Kill_of_instance s denied pid hi]
  constructor
  · intro hg
    simp [ProcessKill, Sys.emit, hx, doneError, hg, killBranch, Fatal]
  · intro hg
    simp [ProcessKill, Sys.emit, hx, doneError, hg, killBranch]

/-- C5 (failing input): on Linux the app holds the command of instance 1,
which has exited on its own.  `Process.Kill` answers "os: process already
finished", which is not "invalid argument": `Kill` reports the fatal error,
the supervisor stops and the handle is not cleared. -/
theorem Kill_fatal_on_exited_instance :
    exitedSys.goos = "linux" ∧ exitedSys.app.instance? = some 1 ∧ exitedSys.alive = [] ∧
      (App.Kill exitedSys false).halted = true ∧
      (App.Kill exitedSys false).app.CMD = exitedSys.app.CMD ∧
      (App.Kill exitedSys false).log =
        [(5000, Action.logKill "proj"), (5000, Action.signalKill 1),
          (5000, Action.fatal "Kill error:os: process already finished")] := by
  decide

theorem runTask_last_start (s : Sys) (l : List Task) (ok : Bool) (h : s.tasks = l ++ [Task.start]) :
    runTask s l.length ok = App.Start { s with tasks := l } := by
  unfold runTask
  have h1 : s.tasks[l.length]? = some Task.start := by
    rw [h]; simp
  have h2 : s.tasks.eraseIdx l.length = l := by
    rw [h]; simp [List.eraseIdx_append_of_length_le]
  simp only [h1, h2]

/-- C4 (as amended): a running supervisor whose build tool succeeds.  When no
started instance is held, or the held instance is alive and the kill signal is
delivered, `Build` sends the signal exactly once (not at all when no instance
is held) and then launches exactly one `Start`; when that goroutine runs, the
start is logged after the kill and one new command is launched.  When the held
instance is alive and the system refuses the signal, the fatal error is
reported, the supervisor stops for good, and no `Start` is launched. -/
theorem Build_success_kills_then_starts (s : Sys) (o : Outcome) (ok : Bool)
    (hlive : s.halted = false) (hok : o.buildOk = true) :
    ((s.app.instance? = none ∨
        ∃ pid, s.app.instance? = some pid ∧ pid ∈ s.alive ∧ o.killDenied = false) →
      (App.Build s o).halted = false ∧
      (App.Build s o).log = s.log ++ buildActs s ++ killActs s ∧
      killsOf (App.Build s o).log = killsOf s.log ++ s.app.instance?.toList ∧
      (App.Build s o).signalled = s.signalled ++ s.app.instance?.toList ∧
      (App.Build s o).tasks = s.tasks ++ [Task.start] ∧
      (runTask (App.Build s o) s.tasks.length ok).log =
        s.log ++ buildActs s ++ killActs s ++ [(s.now, Action.logStart s.app.Name)] ∧
      ∃ c : Cmd, (runTask (App.Build s o) s.tasks.length ok).app.CMD = some c ∧
        c.Process = none ∧
        (runTask (App.Build s o) s.tasks.length ok).tasks =
          s.tasks ++ [Task.run c.id c.Path]) ∧
    (∀ pid, s.app.instance? = some pid → pid ∈ s.alive → o.killDenied = true →
      (App.Build s o).halted = true ∧
      (App.Build s o).log = s.log ++ buildActs s ++ killActs s ++
        [(s.now, Action.fatal ("Kill error:" ++ deniedError s.goos))] ∧
      (App.Build s o).tasks = s.tasks ∧
      (App.Build s o).app.CMD = s.app.CMD ∧
      (App.Build s o).alive = s.alive ∧
      (App.Build s o).signalled = s.signalled ∧
      ∀ (lib : RegexpLib) (ev : Ev), step lib (App.Build s o) ev = App.Build s o) := by
  have hB : App.Build s o = App.Restart ((s.emit (Action.logBuild s.app.Name)).emit
      (Action.execBuild "go" (buildArgs s.goos s.app) "GOGC=off")) o.killDenied := by
    simp [App.Build, hok]
  constructor
  · intro hkill
    have key : (App.Build s o).halted = false ∧
        (App.Build s o).log = s.log ++ buildActs s ++ killActs s ∧
        (App.Build s o).signalled = s.signalled ++ s.app.instance?.toList ∧
        (App.Build s o).tasks = s.tasks ++ [Task.start] ∧
        (App.Build s o).now = s.now ∧ (App.Build s o).app.Name = s.app.Name := by
      rcases hkill with hnone | ⟨pid, hi, hal, hd⟩
      · rw [hB]
        simp only [App.Restart]
        rw [Kill_of_no_instance _ _ (by exact hnone)]
        simp [Sys.emit, hlive, buildActs, killActs, hnone]
      · rw [hB]
        simp only [App.Restart]
        rw [Kill_of_instance _ _ pid (by exact hi)]
        simp [ProcessKill, Sys.emit, hal, hd, killBranch, hlive, buildActs, killActs, hi]
    obtain ⟨hh, hl, hs, ht, hn, hname⟩ := key
    have hrun := runTask_last_start (App.Build s o) s.tasks ok ht
    refine ⟨hh, hl, ?_, hs, ht, ?_, ?_⟩
    · rw [hl]
      simp only [killsOf_append]
      cases hi : s.app.instance? <;> simp [buildActs, killActs, killsOf, hi]
    · rw [hrun]
      simp [App.Start, Sys.emit, hl, hn, hname]
    · rw [hrun]
      exact ⟨_, rfl, rfl, rfl⟩
  · intro pid hi hal hd
    have key : (App.Build s o).halted = true ∧
        (App.Build s o).log = s.log ++ buildActs s ++ killActs s ++
          [(s.now, Action.fatal ("Kill error:" ++ deniedError s.goos))] ∧
        (App.Build s o).tasks = s.tasks ∧
        (App.Build s o).app.CMD = s.app.CMD ∧
        (App.Build s o).alive = s.alive ∧
        (App.Build s o).signalled = s.signalled := by
      have hne : deniedError s.goos ≠ "invalid argument" := by
        unfold deniedError
        split <;> decide
      rw [hB]
      simp only [App.Restart]
      rw [Kill_of_instance _ _ pid (by exact hi)]
      simp [ProcessKill, Sys.emit, hal, hd, killBranch, hne, Fatal, buildActs, killActs, hi]
    obtain ⟨h1, h2, h3, h4, h5, h6⟩ := key
    refine ⟨h1, h2, h3, h4, h5, h6, ?_⟩
    intro lib ev
    simp [step, h1]

/-- C4 (witness): a successful build while instance 1 is running, with the
kill signal delivered, and with the kill signal refused. -/
theorem Build_success_kills_then_starts_witness :
    (killsOf (App.Build runningSys ⟨true, "", false⟩).log = [1] ∧
      (App.Build runningSys ⟨true, "", false⟩).tasks = [Task.start]) ∧
    ((App.Build runningSys ⟨true, "", true⟩).halted = true ∧
      (App.Build runningSys ⟨true, "", true⟩).tasks = []) :=
  ⟨⟨((Build_success_kills_then_starts runningSys ⟨true, "", false⟩ true rfl rfl).1
      (Or.inr ⟨1, rfl, by decide, rfl⟩)).2.2.1,
    ((Build_success_kills_then_starts runningSys ⟨true, "", false⟩ true rfl rfl).1
      (Or.inr ⟨1, rfl, by decide, rfl⟩)).2.2.2.2.1⟩,
   ⟨((Build_success_kills_then_starts runningSys ⟨true, "", true⟩ true rfl rfl).2
      1 rfl (by decide) rfl).1,
    ((Build_success_kills_then_starts runningSys ⟨true, "", true⟩ true rfl rfl).2
      1 rfl (by decide) rfl).2.2.1⟩⟩

/-- C4 (counterexample): the build succeeds while instance 1 is running and
the system refuses the kill signal ("operation not permitted"): the supervisor
stops in the fatal branch of `Kill`, the old instance is neither signalled nor
replaced, and no `Start` is launched. -/
theorem Build_success_without_start :
    runningSys.halted = false ∧ runningSys.app.instance? = some 1 ∧ runningSys.alive = [1] ∧
      (App.Build runningSys ⟨true, "", true⟩).tasks = [] ∧
      (App.Build runningSys ⟨true, "", true⟩).halted = true ∧
      (App.Build runningSys ⟨true, "", true⟩).alive = [1] ∧
      (App.Build runningSys ⟨true, "", true⟩).signalled = [] ∧
      (App.Build runningSys ⟨true, "", true⟩).app.CMD = runningSys.app.CMD := by
  decide

theorem hasInfix_of_startsWith (l sub : List Char) (h : startsWith l sub = true) :
    hasInfix l sub = true := by
  cases l with
  | nil =>
    cases sub with
    | nil => rfl
    | cons d ds => simp [startsWith] at h
  | cons c cs => simp [hasInfix, h]

theorem startsWith_append (sub l : List Char) : startsWith (sub ++ l) sub = true := by
  induction sub with
  | nil => cases l <;> rfl
  | cons d ds ih => simp [startsWith, ih]

theorem Contains_dotSlash_append (name : String) : Contains ("./" ++ name) "./" = true := by
  unfold Contains
  apply hasInfix_of_startsWith
  rw [String.toList, String.data_append]
  exact startsWith_append _ _

/-- C8 (as amended): the command that `Start` creates has the name itself as
path when the name contains "./" anywhere (in particular when it begins with
"./"), and "./" followed by the name otherwise (also when the name begins
with "/"); in both cases the path contains "./". -/
theorem Start_command_path (s : Sys) :
    ∃ c : Cmd, (App.Start s).app.CMD = some c ∧
      c.Path = (if Contains s.app.Name "./" then s.app.Name else "./" ++ s.app.Name) ∧
      (startsWith s.app.Name.toList "./".toList = true → c.Path = s.app.Name) ∧
      Contains c.Path "./" = true ∧
      (App.Start s).tasks = s.tasks ++ [Task.run c.id c.Path] := by
  refine ⟨_, rfl, ?_, ?_, ?_, rfl⟩
  · by_cases h : Contains s.app.Name "./" = true <;> simp [h, Sys.emit]
  · intro h
    have h2 : Contains s.app.Name "./" = true := hasInfix_of_startsWith _ _ h
    simp [h2, Sys.emit]
  · by_cases h : Contains s.app.Name "./" = true
    · simp [h, Sys.emit]
    · simp [h, Sys.emit, Contains_dotSlash_append]

/-- C8 (counterexample): for the absolute name /bin/app the command path is
.//bin/app, not the name; and the name a./b, which begins with neither "/" nor
"./", is left as it is. -/
theorem Start_prefixes_absolute_name :
    (App.Start (boot "linux" "/bin" "/bin/app")).app.CMD =
        some { id := 0, Path := ".//bin/app", Process := none } ∧
      (App.Start (boot "linux" "/bin" "a./b")).app.CMD =
        some { id := 0, Path := "a./b", Process := none } := by
  decide

/-! ## The debounce timer -/

theorem Kill_frame (s : Sys) (d : Bool) :
    (App.Kill s d).timers = s.timers ∧ (App.Kill s d).app.Timer = s.app.Timer ∧
      (App.Kill s d).now = s.now ∧ buildTimes (App.Kill s d).log = buildTimes s.log ∧
      (App.Kill s d).app.WatchList = s.app.WatchList ∧
      (App.Kill s d).app.UnWatchList = s.app.UnWatchList := by
  cases hi : s.app.instance? with
  | none => rw [Kill_of_no_instance s d hi]; simp
  | some pid =>
    rw [Kill_of_instance s d pid hi]
    unfold ProcessKill
    by_cases hal : pid ∈ s.alive
    · cases d with
      | true =>
        by_cases he : deniedError s.goos = "invalid argument" <;>
          simp [Sys.emit, hal, killBranch, Fatal, he, buildTimes_append, buildTimes]
      | false => simp [Sys.emit, hal, killBranch, buildTimes_append, buildTimes]
    · by_cases he : doneError s.goos = "invalid argument" <;>
        simp [Sys.emit, hal, killBranch, Fatal, he, buildTimes_append, buildTimes]

theorem Restart_frame (s : Sys) (d : Bool) :
    (App.Restart s d).timers = s.timers ∧ (App.Restart s d).app.Timer = s.app.Timer ∧
      (App.Restart s d).now = s.now ∧ buildTimes (App.Restart s d).log = buildTimes s.log ∧
      (App.Restart s d).app.WatchList = s.app.WatchList ∧
      (App.Restart s d).app.UnWatchList = s.app.UnWatchList := by
  obtain ⟨h1, h2, h3, h4, h5, h6⟩ := Kill_frame s d
  simp only [App.Restart]
  by_cases hh : (App.Kill s d).halted = true <;> simp [hh, h1, h2, h3, h4, h5, h6]

theorem Build_frame (s : Sys) (o : Outcome) :
    (App.Build s o).timers = s.timers ∧ (App.Build s o).app.Timer = s.app.Timer ∧
      (App.Build s o).now = s.now ∧
      buildTimes (App.Build s o).log = buildTimes s.log ++ [s.now] ∧
      (App.Build s o).app.WatchList = s.app.WatchList ∧
      (App.Build s o).app.UnWatchList = s.app.UnWatchList := by
  unfold App.Build
  cases o.buildOk with
  | false => simp [Sys.emit, buildTimes_append, buildTimes]
  | true =>
    obtain ⟨h1, h2, h3, h4, h5, h6⟩ :=
      Restart_frame ((s.emit (Action.logBuild s.app.Name)).emit
        (Action.execBuild "go" (buildArgs s.goos s.app) "GOGC=off")) o.killDenied
    simp only [Bool.not_true, Bool.false_eq_true, if_false]
    rw [h1, h2, h3, h4, h5, h6]
    simp [Sys.emit, buildTimes_append, buildTimes]

theorem closeEntry_getElem?_self (l : List Entry) (i : Nat) (e : Entry) (h : l[i]? = some e) :
    (closeEntry l i)[i]? = some { e with closed := true } := by
  simp [closeEntry, h]

theorem closeEntry_getElem?_ne (l : List Entry) (i j : Nat) (h : i ≠ j) :
    (closeEntry l i)[j]? = l[j]? := by
  simp [closeEntry, h]

theorem step_expire_closed (lib : RegexpLib) (s : Sys) (i : Nat) (e : Entry) (o : Outcome)
    (h : s.timers[i]? = some e) (hc : e.closed = true) : step lib s (Ev.expire i o) = s := by
  simp only [step, expire, h, hc]
  simp

theorem step_expire_of_all_closed (lib : RegexpLib) (s : Sys) (i : Nat) (o : Outcome)
    (h : ∀ e, s.timers[i]? = some e → e.closed = true) : step lib s (Ev.expire i o) = s := by
  cases hi : s.timers[i]? with
  | none =>
    simp only [step, expire, hi]
    simp
  | some e => exact step_expire_closed lib s i e o hi (h e hi)

theorem step_expire_open (lib : RegexpLib) (s : Sys) (i : Nat) (e : Entry) (o : Outcome)
    (hlive : s.halted = false) (he : s.timers[i]? = some e) (hopen : e.closed = false) :
    step lib s (Ev.expire i o) =
      App.Build { s with timers := closeEntry s.timers i } o := by
  simp only [step, hlive, expire, he, hopen]
  simp

theorem step_clock (lib : RegexpLib) (s : Sys) (t : Nat) (hlive : s.halted = false) :
    step lib s (Ev.clock t) = { s with now := max s.now t } := by
  simp [step, hlive]

/-- C9 (as amended): when the pending timer entry, to which the field `Timer`
points, expires without having been closed, `Build` is entered exactly once
(at the time of the expiry) and the entry is closed in the wheel, so that it
never runs again; the field `Timer` is not cleared: it still points to the
expired entry. -/
theorem expiry_builds_once_and_keeps_Timer (lib : RegexpLib) (s : Sys) (i : Nat) (e : Entry)
    (o : Outcome) (hlive : s.halted = false) (hT : s.app.Timer = some i)
    (he : s.timers[i]? = some e) (hopen : e.closed = false) :
    buildTimes (step lib s (Ev.expire i o)).log = buildTimes s.log ++ [s.now] ∧
      (step lib s (Ev.expire i o)).app.Timer = some i ∧
      (step lib s (Ev.expire i o)).timers = closeEntry s.timers i ∧
      (step lib s (Ev.expire i o)).timers[i]? = some { e with closed := true } ∧
      ∀ o2 : Outcome, step lib (step lib s (Ev.expire i o)) (Ev.expire i o2) =
        step lib s (Ev.expire i o) := by
  have hstep := step_expire_open lib s i e o hlive he hopen
  obtain ⟨h1, h2, _, h4, _, _⟩ :=
    Build_frame { s with timers := closeEntry s.timers i } o
  have hget : (step lib s (Ev.expire i o)).timers[i]? = some { e with closed := true } := by
    rw [hstep, h1]
    exact closeEntry_getElem?_self s.timers i e he
  refine ⟨?_, ?_, ?_, hget, ?_⟩
  · rw [hstep, h4]
  · rw [hstep, h2]; exact hT
  · rw [hstep, h1]
  · intro o2
    exact step_expire_closed lib _ i _ o2 hget rfl

/-- C9 (witness): the pending entry 0, armed for 1000 ms, expires. -/
theorem expiry_builds_once_and_keeps_Timer_witness :
    buildTimes (step goRegexp pendingSys (Ev.expire 0 ⟨true, "", false⟩)).log =
        buildTimes pendingSys.log ++ [pendingSys.now] ∧
      (step goRegexp pendingSys (Ev.expire 0 ⟨true, "", false⟩)).app.Timer = some 0 :=
  ⟨(expiry_builds_once_and_keeps_Timer goRegexp pendingSys 0 ⟨1000, false⟩ ⟨true, "", false⟩
      (by decide) (by decide) (by decide) rfl).1,
    (expiry_builds_once_and_keeps_Timer goRegexp pendingSys 0 ⟨1000, false⟩ ⟨true, "", false⟩
      (by decide) (by decide) (by decide) rfl).2.1⟩

/-- C9 (counterexample): after the pending timer has expired and the build
has run, the field `Timer` is not nil; it still holds the expired entry. -/
theorem Timer_not_cleared_after_expiry :
    pendingSys.app.Timer = some 0 ∧
      pendingSys.timers = [{ due := 1000, closed := false }] ∧
      (step goRegexp pendingSys (Ev.expire 0 ⟨true, "", false⟩)).app.Timer ≠ none ∧
      buildTimes (step goRegexp pendingSys (Ev.expire 0 ⟨true, "", false⟩)).log = [0, 1000] := by
  decide

theorem qualifies_congr (lib : RegexpLib) (a b : App) (path : String)
    (hw : a.WatchList = b.WatchList) (hu : a.UnWatchList = b.UnWatchList) :
    qualifies lib a path = qualifies lib b path := by
  simp [qualifies, App.IsWatch, App.IsUnwatch, hw, hu]

/-- The callback run as a whole does what its two parts do one right after
the other. -/
theorem handler_eq_head_tail (lib : RegexpLib) (s : Sys) (event : Event) :
    handler lib s event =
      if qualifies lib s.app event.Path then handlerTail (handlerHead lib s event)
      else handlerHead lib s event := by
  by_cases hu : s.app.IsUnwatch lib event.Path = true
  · simp [handler, handlerHead, qualifies, hu]
  · by_cases hw : s.app.IsWatch lib event.Path = true
    · cases hT : s.app.Timer <;>
        simp [handler, handlerHead, handlerTail, qualifies, hu, hw, hT, Sys.emit]
    · simp [handler, handlerHead, qualifies, hu, hw]

theorem notify_qualifying (lib : RegexpLib) (s : Sys) (ev : Event)
    (hlive : s.halted = false) (hq : qualifies lib s.app ev.Path = true)
    (hp : OnlyPending s) :
    (step lib s (Ev.notify ev)).halted = false ∧
      (step lib s (Ev.notify ev)).now = s.now ∧
      buildTimes (step lib s (Ev.notify ev)).log = buildTimes s.log ∧
      (step lib s (Ev.notify ev)).app.WatchList = s.app.WatchList ∧
      (step lib s (Ev.notify ev)).app.UnWatchList = s.app.UnWatchList ∧
      (step lib s (Ev.notify ev)).app.Timer = some s.timers.length ∧
      (step lib s (Ev.notify ev)).timers[s.timers.length]? =
        some { due := s.now + 1000, closed := false } ∧
      OnlyPending (step lib s (Ev.notify ev)) := by
  have hw : s.app.IsWatch lib ev.Path = true := by
    simp [qualifies] at hq; exact hq.1
  have hu : s.app.IsUnwatch lib ev.Path = false := by
    simp [qualifies] at hq; exact hq.2
  cases hT : s.app.Timer with
  | none =>
    have hs : step lib s (Ev.notify ev) =
        { s with
          log := s.log ++ [(s.now, Action.logEvent ev.kind ev.Path)]
          timers := s.timers ++ [{ due := s.now + 1000, closed := false }]
          app := { s.app with Timer := some s.timers.length } } := by
      simp [step, handler, hlive, hw, hu, hT, Sys.emit]
    rw [hs]
    refine ⟨hlive, rfl, ?_, rfl, rfl, rfl, ?_, ?_⟩
    · simp [buildTimes_append, buildTimes]
    · simp
    · intro j e hj hopen
      simp only at hj
      rcases Nat.lt_trichotomy j s.timers.length with hlt | heq | hgt
      · rw [List.getElem?_append_left hlt] at hj
        have := hp j e hj hopen
        rw [hT] at this
        cases this
      · subst heq
        rfl
      · rw [List.getElem?_append_right (Nat.le_of_lt hgt)] at hj
        have : j - s.timers.length ≠ 0 := by omega
        obtain ⟨k, hk⟩ := Nat.exists_eq_succ_of_ne_zero this
        rw [hk] at hj
        simp at hj
  | some i =>
    have hs : step lib s (Ev.notify ev) =
        { s with
          log := s.log ++ [(s.now, Action.logEvent ev.kind ev.Path)]
          timers := closeEntry s.timers i ++ [{ due := s.now + 1000, closed := false }]
          app := { s.app with Timer := some s.timers.length } } := by
      simp [step, handler, hlive, hw, hu, hT, Sys.emit, closeEntry]
    have hlen : (closeEntry s.timers i).length = s.timers.length := by
      simp [closeEntry]
    rw [hs]
    refine ⟨hlive, rfl, ?_, rfl, rfl, rfl, ?_, ?_⟩
    · simp [buildTimes_append, buildTimes]
    · simp only
      rw [← hlen]
      simp
    · intro j e hj hopen
      simp only at hj
      rcases Nat.lt_trichotomy j s.timers.length with hlt | heq | hgt
      · rw [List.getElem?_append_left (by rw [hlen]; exact hlt)] at hj
        by_cases hji : i = j
        · subst hji
          have hex : ∃ e0, s.timers[i]? = some e0 := by
            cases h0 : s.timers[i]? with
            | none =>
              rw [List.getElem?_eq_none_iff] at h0
              omega
            | some e0 => exact ⟨e0, rfl⟩
          obtain ⟨e0, he0⟩ := hex
          rw [closeEntry_getElem?_self s.timers i e0 he0] at hj
          cases hj
          simp at hopen
        · rw [closeEntry_getElem?_ne s.timers i j hji] at hj
          have := hp j e hj hopen
          rw [hT] at this
          cases this
          exact absurd rfl hji
      · subst heq
        rfl
      · rw [List.getElem?_append_right (by rw [hlen]; exact Nat.le_of_lt hgt)] at hj
        have : j - (closeEntry s.timers i).length ≠ 0 := by rw [hlen]; omega
        obtain ⟨k, hk⟩ := Nat.exists_eq_succ_of_ne_zero this
        rw [hk] at hj
        simp at hj

theorem deliver_armed (lib : RegexpLib) (s : Sys) (te : Nat × Event)
    (hlive : s.halted = false) (hp : OnlyPending s)
    (hq : qualifies lib s.app te.2.Path = true) :
    Armed (deliver lib s te) ∧
      buildTimes (deliver lib s te).log = buildTimes s.log ∧
      (deliver lib s te).app.WatchList = s.app.WatchList ∧
      (deliver lib s te).app.UnWatchList = s.app.UnWatchList := by
  have hp1 : OnlyPending { s with now := max s.now te.1 } := hp
  obtain ⟨h1, h2, h3, h4, h5, h6, h7, h8⟩ :=
    notify_qualifying lib { s with now := max s.now te.1 } te.2 hlive hq hp1
  unfold deliver
  rw [step_clock lib s te.1 hlive]
  refine ⟨⟨h1, h8, _, h6, ?_⟩, h3, h4, h5⟩
  rw [h2]
  exact h7

theorem burst_armed (lib : RegexpLib) (rest : List (Nat × Event)) :
    ∀ (s : Sys), Armed s →
      (∀ te ∈ rest, qualifies lib s.app te.2.Path = true) →
      Armed (burst lib s rest) ∧ buildTimes (burst lib s rest).log = buildTimes s.log := by
  induction rest with
  | nil => intro s ha _; exact ⟨ha, rfl⟩
  | cons te rest ih =>
    intro s ha hq
    obtain ⟨hlive, hp, _⟩ := ha
    obtain ⟨ha2, hb, hw, hu⟩ := deliver_armed lib s te hlive hp
      (hq te (List.mem_cons_self te rest))
    have hq2 : ∀ x ∈ rest, qualifies lib (deliver lib s te).app x.2.Path = true := by
      intro x hx
      rw [qualifies_congr lib _ s.app x.2.Path hw hu]
      exact hq x (List.mem_cons_of_mem te hx)
    obtain ⟨ha3, hb3⟩ := ih (deliver lib s te) ha2 hq2
    simp only [burst, List.foldl_cons] at ha3 hb3 ⊢
    exact ⟨ha3, hb3.trans hb⟩

theorem armed_runs_once (lib : RegexpLib) (s : Sys) (ha : Armed s) :
    ∃ i, s.app.Timer = some i ∧
      s.timers[i]? = some { due := s.now + 1000, closed := false } ∧
      (∀ (j : Nat) (o : Outcome), j ≠ i → step lib s (Ev.expire j o) = s) ∧
      ∀ (T : Nat) (o : Outcome),
        buildTimes (run lib s [Ev.clock T, Ev.expire i o]).log =
          buildTimes s.log ++ [max s.now T] ∧
        ∀ (j : Nat) (o2 : Outcome),
          step lib (run lib s [Ev.clock T, Ev.expire i o]) (Ev.expire j o2) =
            run lib s [Ev.clock T, Ev.expire i o] := by
  obtain ⟨hlive, hp, i, hTi, hei⟩ := ha
  refine ⟨i, hTi, hei, ?_, ?_⟩
  · intro j o hji
    apply step_expire_of_all_closed
    intro e he
    cases hc : e.closed with
    | true => rfl
    | false =>
      have := hp j e he hc
      rw [hTi] at this
      cases this
      exact absurd rfl hji
  · intro T o
    have hrun : run lib s [Ev.clock T, Ev.expire i o] =
        App.Build { s with now := max s.now T, timers := closeEntry s.timers i } o := by
      simp only [run, List.foldl_cons, List.foldl_nil]
      rw [step_clock lib s T hlive]
      exact step_expire_open lib { s with now := max s.now T } i _ o hlive hei rfl
    obtain ⟨hb1, _, _, hb4, _, _⟩ :=
      Build_frame { s with now := max s.now T, timers := closeEntry s.timers i } o
    rw [hrun]
    refine ⟨hb4, ?_⟩
    intro j o2
    apply step_expire_of_all_closed
    intro e he
    rw [hb1] at he
    simp only at he
    by_cases hji : i = j
    · subst hji
      rw [closeEntry_getElem?_self s.timers i _ hei] at he
      cases he
      rfl
    · rw [closeEntry_getElem?_ne s.timers i j hji] at he
      cases hc : e.closed with
      | true => rfl
      | false =>
        have := hp j e he hc
        rw [hTi] at this
        cases this
        exact absurd rfl hji

/-- C2 (as amended): in a running supervisor whose wheel holds no open entry
but possibly the one `Timer` points to, let one or more qualifying
notifications be handled one after the other, each callback as a whole and
with no timer expiry in between.  Then no build has run meanwhile; exactly one
entry is open, the one armed by the last notification for 1000 ms later, and
`Timer` points to it; the expiry of any other entry does nothing; and when the
wheel runs that entry, at whatever time, `Build` is entered exactly once, after
which no expiry does anything any more. -/
theorem burst_builds_once_when_timer_runs (lib : RegexpLib) (s : Sys)
    (t1 : Nat) (e1 : Event) (rest : List (Nat × Event))
    (hlive : s.halted = false)
    (hpend : ∀ (j : Nat) (e : Entry), s.timers[j]? = some e → e.closed = false →
      s.app.Timer = some j)
    (hq : ∀ te ∈ (t1, e1) :: rest, qualifies lib s.app te.2.Path = true) :
    buildTimes (burst lib s ((t1, e1) :: rest)).log = buildTimes s.log ∧
      ∃ i, (burst lib s ((t1, e1) :: rest)).app.Timer = some i ∧
        (burst lib s ((t1, e1) :: rest)).timers[i]? =
          some { due := (burst lib s ((t1, e1) :: rest)).now + 1000, closed := false } ∧
        (∀ (j : Nat) (o : Outcome), j ≠ i →
          step lib (burst lib s ((t1, e1) :: rest)) (Ev.expire j o) =
            burst lib s ((t1, e1) :: rest)) ∧
        ∀ (T : Nat) (o : Outcome),
          buildTimes (run lib (burst lib s ((t1, e1) :: rest)) [Ev.clock T, Ev.expire i o]).log =
            buildTimes s.log ++ [max (burst lib s ((t1, e1) :: rest)).now T] ∧
          ∀ (j : Nat) (o2 : Outcome),
            step lib (run lib (burst lib s ((t1, e1) :: rest)) [Ev.clock T, Ev.expire i o])
                (Ev.expire j o2) =
              run lib (burst lib s ((t1, e1) :: rest)) [Ev.clock T, Ev.expire i o] := by
  obtain ⟨ha, hb, hw, hu⟩ := deliver_armed lib s (t1, e1) hlive hpend
    (hq (t1, e1) (List.mem_cons_self _ _))
  have hq2 : ∀ x ∈ rest, qualifies lib (deliver lib s (t1, e1)).app x.2.Path = true := by
    intro x hx
    rw [qualifies_congr lib _ s.app x.2.Path hw hu]
    exact hq x (List.mem_cons_of_mem _ hx)
  obtain ⟨ha2, hb2⟩ := burst_armed lib rest (deliver lib s (t1, e1)) ha hq2
  have hburst : burst lib s ((t1, e1) :: rest) = burst lib (deliver lib s (t1, e1)) rest := rfl
  rw [hburst]
  obtain ⟨i, h1, h2, h3, h4⟩ := armed_runs_once lib _ ha2
  refine ⟨hb2.trans hb, i, h1, h2, h3, ?_⟩
  intro T o
  obtain ⟨h5, h6⟩ := h4 T o
  refine ⟨?_, h6⟩
  rw [h5, hb2, hb]

/-- C2 (witness): after the first build, two writes to main.go at 200 ms and
400 ms; the entry armed by the second one runs at 1400 ms. -/
theorem burst_builds_once_when_timer_runs_witness :
    buildTimes (burst goRegexp (Run "linux" "/proj" "proj" none ⟨true, "", false⟩)
        [(200, mainWrite), (400, mainWrite)]).log = [0] ∧
      ∃ i, ∀ (T : Nat) (o : Outcome),
        buildTimes (run goRegexp
            (burst goRegexp (Run "linux" "/proj" "proj" none ⟨true, "", false⟩)
              [(200, mainWrite), (400, mainWrite)]) [Ev.clock T, Ev.expire i o]).log =
          [0] ++ [max 400 T] :=
  have h := burst_builds_once_when_timer_runs goRegexp
    (Run "linux" "/proj" "proj" none ⟨true, "", false⟩) 200 mainWrite [(400, mainWrite)]
    (by decide)
    (by intro j e h; simp [Run, boot, App.Build, App.Restart, App.Kill, Sys.emit, New] at h)
    (by decide)
  ⟨h.1, h.2.imp (fun _ hi T o => (hi.2.2.2 T o).1)⟩

/-- C2 (counterexample): two qualifying notifications less than a second
apart and two builds.  First run: a write at 2024 ms arms entry 0 for 3024 ms,
the wheel runs it at 3001 ms, and the write at 3023 ms, 999 ms after the first
one, comes too late to cancel it.  Second run: two callbacks for writes at
2024 ms both cancel the old timer before either arms a new one; both entries
stay open and both run. -/
theorem two_builds_for_one_burst :
    (run goRegexp (Run "linux" "/proj" "proj" none ⟨true, "", false⟩)
        [Ev.clock 2024, Ev.notify mainWrite]).timers = [{ due := 3024, closed := false }] ∧
      buildTimes (run goRegexp (Run "linux" "/proj" "proj" none ⟨true, "", false⟩)
        [Ev.clock 2024, Ev.notify mainWrite, Ev.clock 3001, Ev.expire 0 ⟨true, "", false⟩,
          Ev.clock 3023, Ev.notify mainWrite, Ev.clock 4001,
          Ev.expire 1 ⟨true, "", false⟩]).log = [0, 3001, 4001] ∧
      buildTimes (run goRegexp (Run "linux" "/proj" "proj" none ⟨true, "", false⟩)
        [Ev.clock 2024, Ev.notifyHead mainWrite, Ev.notifyHead mainWrite, Ev.notifyTail,
          Ev.notifyTail, Ev.clock 3024, Ev.expire 0 ⟨true, "", false⟩,
          Ev.expire 1 ⟨true, "", false⟩]).log = [0, 3024, 3024] := by
  decide

/-! ## At most one instance without a kill signal -/

theorem sublist_singleton_cases {l : List Nat} {p : Nat} (h : l.Sublist [p]) :
    l = [] ∨ l = [p] := by
  cases l with
  | nil => exact Or.inl rfl
  | cons x xs =>
    have hlen := h.length_le
    have hx : x ∈ [p] := h.subset (List.mem_cons_self x xs)
    simp only [List.length_cons, List.length_nil] at hlen
    have hxs : xs = [] := List.length_eq_zero.1 (by omega)
    simp only [List.mem_singleton] at hx
    rw [hxs, hx]
    exact Or.inr rfl

theorem Single.length_le {s : Sys} (h : Single s) : (unsignalled s).length ≤ 1 := by
  rcases h with ⟨_, h⟩ | ⟨_, _, _, h, _⟩ | ⟨_, h⟩ | ⟨_, _, _, h⟩ <;> simp [h]

theorem Single.held {s : Sys} (h : Single s) :
    ∀ p ∈ unsignalled s, s.app.instance? = some p := by
  intro p hp
  rcases h with ⟨_, h⟩ | ⟨_, pid, c, h, hc, hpr⟩ | ⟨_, h⟩ | ⟨_, _, _, h⟩
  · rw [h] at hp; cases hp
  · rw [h, List.mem_singleton] at hp
    subst hp
    simp [App.instance?, hc, hpr]
  · rw [h] at hp; cases hp
  · rw [h] at hp; cases hp

theorem Single.congr {s s2 : Sys} (h : Single s) (ht : s2.tasks = s.tasks)
    (ha : s2.alive = s.alive) (hg : s2.signalled = s.signalled)
    (hc : s2.app.CMD = s.app.CMD) : Single s2 := by
  have hu : unsignalled s2 = unsignalled s := by simp [unsignalled, ha, hg]
  unfold Single at *
  rw [ht, hu, hc]
  exact h

theorem handler_frame (lib : RegexpLib) (s : Sys) (ev : Event) :
    (handler lib s ev).tasks = s.tasks ∧ (handler lib s ev).alive = s.alive ∧
      (handler lib s ev).signalled = s.signalled ∧ (handler lib s ev).nextId = s.nextId ∧
      (handler lib s ev).app.CMD = s.app.CMD := by
  unfold handler
  by_cases hu : s.app.IsUnwatch lib ev.Path = true
  · simp [hu]
  · by_cases hw : s.app.IsWatch lib ev.Path = true
    · cases hT : s.app.Timer <;> simp [hu, hw, hT, Sys.emit]
    · simp [hu, hw]

theorem handlerHead_frame (lib : RegexpLib) (s : Sys) (ev : Event) :
    (handlerHead lib s ev).tasks = s.tasks ∧ (handlerHead lib s ev).alive = s.alive ∧
      (handlerHead lib s ev).signalled = s.signalled ∧
      (handlerHead lib s ev).nextId = s.nextId ∧
      (handlerHead lib s ev).app.CMD = s.app.CMD := by
  unfold handlerHead
  by_cases hu : s.app.IsUnwatch lib ev.Path = true
  · simp [hu]
  · by_cases hw : s.app.IsWatch lib ev.Path = true
    · cases hT : s.app.Timer <;> simp [hu, hw, hT, Sys.emit]
    · simp [hu, hw]

theorem handlerTail_frame (s : Sys) :
    (handlerTail s).tasks = s.tasks ∧ (handlerTail s).alive = s.alive ∧
      (handlerTail s).signalled = s.signalled ∧ (handlerTail s).nextId = s.nextId ∧
      (handlerTail s).app.CMD = s.app.CMD := by
  unfold handlerTail
  by_cases h : s.arming = 0 <;> simp [h]

theorem killBranch_fields (s : Sys) (err : Option String) :
    (killBranch s err).tasks = s.tasks ∧ (killBranch s err).alive = s.alive ∧
      (killBranch s err).signalled = s.signalled ∧ (killBranch s err).nextId = s.nextId ∧
      (((killBranch s err).halted = true ∧ (killBranch s err).app.CMD = s.app.CMD) ∨
        (killBranch s err).app.CMD = none) := by
  cases err with
  | none => simp [killBranch]
  | some e =>
    by_cases he : e = "invalid argument" <;> simp [killBranch, he, Fatal, Sys.emit]

theorem unsignalled_signal (s : Sys) (pid : Nat) :
    unsignalled { s with signalled := s.signalled ++ [pid] } =
      (unsignalled s).filter (fun p => decide (p ≠ pid)) := by
  simp only [unsignalled, List.filter_filter]
  congr 1
  funext p
  simp [List.mem_append, not_or, and_comm]

theorem Kill_single (s : Sys) (d : Bool) (ht : s.tasks = []) (hs : Single s) :
    (App.Kill s d).tasks = [] ∧
      (unsignalled (App.Kill s d) = [] ∨
        ((App.Kill s d).halted = true ∧ Single (App.Kill s d))) := by
  have hcase : unsignalled s = [] ∨ ∃ p, unsignalled s = [p] ∧ s.app.instance? = some p := by
    rcases hs with ⟨_, h⟩ | ⟨_, pid, c, h, hc, hpr⟩ | ⟨_, h⟩ | ⟨_, _, _, h⟩
    · exact Or.inl h
    · exact Or.inr ⟨pid, h, by simp [App.instance?, hc, hpr]⟩
    · exact Or.inl h
    · exact Or.inl h
  cases hi : s.app.instance? with
  | none =>
    rw [Kill_of_no_instance s d hi]
    refine ⟨ht, Or.inl ?_⟩
    rcases hcase with h | ⟨p, _, h⟩
    · exact h
    · rw [hi] at h; cases h
  | some pid =>
    rw [Kill_of_instance s d pid hi]
    by_cases hal : pid ∈ s.alive
    · cases d with
      | true =>
        have hr : ProcessKill ((s.emit (Action.logKill s.app.Name)).emit
            (Action.signalKill pid)) pid true =
            ((s.emit (Action.logKill s.app.Name)).emit (Action.signalKill pid),
              some (deniedError s.goos)) := by
          simp [ProcessKill, Sys.emit, hal]
        rw [hr]
        have hne : deniedError s.goos ≠ "invalid argument" := by
          unfold deniedError
          split <;> decide
        refine ⟨by simp [killBranch, hne, Fatal, Sys.emit, ht], Or.inr ⟨?_, ?_⟩⟩
        · simp [killBranch, hne, Fatal, Sys.emit]
        · apply hs.congr <;> simp [killBranch, hne, Fatal, Sys.emit]
      | false =>
        have hr : ProcessKill ((s.emit (Action.logKill s.app.Name)).emit
            (Action.signalKill pid)) pid false =
            ({ (s.emit (Action.logKill s.app.Name)).emit (Action.signalKill pid) with
                signalled := s.signalled ++ [pid] }, none) := by
          simp [ProcessKill, Sys.emit, hal]
        rw [hr]
        refine ⟨by simp [killBranch, Sys.emit, ht], Or.inl ?_⟩
        have hu : unsignalled (killBranch
            { (s.emit (Action.logKill s.app.Name)).emit (Action.signalKill pid) with
              signalled := s.signalled ++ [pid] } none) =
            (unsignalled s).filter (fun p => decide (p ≠ pid)) := by
          rw [← unsignalled_signal s pid]
          simp [unsignalled, killBranch, Sys.emit]
        rw [hu]
        rcases hcase with h | ⟨p, h, hp⟩
        · simp [h]
        · rw [hi] at hp
          cases hp
          simp [h]
    · have hr : ProcessKill ((s.emit (Action.logKill s.app.Name)).emit
          (Action.signalKill pid)) pid d =
          ((s.emit (Action.logKill s.app.Name)).emit (Action.signalKill pid),
            some (doneError s.goos)) := by
        simp [ProcessKill, Sys.emit, hal]
      rw [hr]
      have hun : unsignalled s = [] := by
        rcases hcase with h | ⟨p, h, hp⟩
        · exact h
        · rw [hi] at hp
          cases hp
          have : pid ∈ unsignalled s := by rw [h]; exact List.mem_singleton_self pid
          exact absurd (List.mem_of_mem_filter this) hal
      obtain ⟨h1, h2, h3, _, h5⟩ := killBranch_fields
        ((s.emit (Action.logKill s.app.Name)).emit (Action.signalKill pid))
        (some (doneError s.goos))
      refine ⟨h1.trans ht, Or.inl ?_⟩
      have : unsignalled (killBranch
          ((s.emit (Action.logKill s.app.Name)).emit (Action.signalKill pid))
          (some (doneError s.goos))) = unsignalled s := by
        simp only [unsignalled, h2, h3]
        rfl
      rw [this, hun]

theorem Build_single (s : Sys) (o : Outcome) (ht : s.tasks = []) (hs : Single s) :
    Single (App.Build s o) := by
  unfold App.Build
  cases o.buildOk with
  | false =>
    simp only [Bool.not_false, if_true]
    exact hs.congr rfl rfl rfl rfl
  | true =>
    simp only [Bool.not_true, Bool.false_eq_true, if_false, App.Restart]
    have hs2 : Single ((s.emit (Action.logBuild s.app.Name)).emit
        (Action.execBuild "go" (buildArgs s.goos s.app) "GOGC=off")) :=
      hs.congr rfl rfl rfl rfl
    obtain ⟨h1, h2⟩ := Kill_single ((s.emit (Action.logBuild s.app.Name)).emit
        (Action.execBuild "go" (buildArgs s.goos s.app) "GOGC=off")) o.killDenied ht hs2
    split
    · rcases h2 with h | ⟨_, h⟩
      · exact Or.inl ⟨h1, h⟩
      · exact h
    · rename_i hh
      rcases h2 with h | ⟨h, _⟩
      · refine Or.inr (Or.inr (Or.inl ⟨?_, h⟩))
        simp only [h1, List.nil_append]
      · exact absurd h hh

theorem runTask_single (s : Sys) (k : Nat) (ok : Bool) (hs : Single s) :
    Single (runTask s k ok) := by
  rcases hs with ⟨ht, ha⟩ | ⟨ht, pid, c, ha, hc, hp⟩ | ⟨ht, ha⟩ | ⟨c, ht, hc, ha⟩
  · have : runTask s k ok = s := by simp [runTask, ht]
    rw [this]; exact Or.inl ⟨ht, ha⟩
  · have : runTask s k ok = s := by simp [runTask, ht]
    rw [this]; exact Or.inr (Or.inl ⟨ht, pid, c, ha, hc, hp⟩)
  · cases k with
    | zero =>
      have : runTask s 0 ok = App.Start { s with tasks := [] } := by simp [runTask, ht]
      rw [this]
      refine Or.inr (Or.inr (Or.inr ⟨_, ?_, rfl, ?_⟩))
      · simp [App.Start, Sys.emit]
      · have hu : unsignalled (App.Start { s with tasks := [] }) = unsignalled s := rfl
        rw [hu, ha]
    | succ n =>
      have : runTask s (n + 1) ok = s := by simp [runTask, ht]
      rw [this]; exact Or.inr (Or.inr (Or.inl ⟨ht, ha⟩))
  · cases k with
    | zero =>
      have : runTask s 0 ok = CmdRun { s with tasks := [] } c.id c.Path ok := by
        simp [runTask, ht]
      rw [this]
      cases ok with
      | false =>
        refine Or.inl ⟨?_, ?_⟩
        · simp [CmdRun]
        · have hu : unsignalled (CmdRun { s with tasks := [] } c.id c.Path false) =
              unsignalled s := rfl
          rw [hu, ha]
      | true =>
        have hu : unsignalled (CmdRun { s with tasks := [] } c.id c.Path true) =
            unsignalled s ++ (if s.nextId ∉ s.signalled then [s.nextId] else []) := by
          simp only [unsignalled, CmdRun, Sys.emit, hc]
          simp [List.filter_append, List.filter_cons]
        by_cases hn : s.nextId ∈ s.signalled
        · refine Or.inl ⟨?_, ?_⟩
          · simp [CmdRun, Sys.emit, hc]
          · rw [hu, ha]; simp [hn]
        · refine Or.inr (Or.inl ⟨?_, s.nextId, { c with Process := some s.nextId }, ?_, ?_, rfl⟩)
          · simp [CmdRun, Sys.emit, hc]
          · rw [hu, ha]; simp [hn]
          · simp [CmdRun, Sys.emit, hc]
    | succ n =>
      have : runTask s (n + 1) ok = s := by simp [runTask, ht]
      rw [this]; exact Or.inr (Or.inr (Or.inr ⟨c, ht, hc, ha⟩))

theorem exit_single (s : Sys) (pid : Nat) (hs : Single s) :
    Single { s with alive := s.alive.erase pid } := by
  have hsub : (unsignalled { s with alive := s.alive.erase pid }).Sublist (unsignalled s) :=
    (List.erase_sublist pid s.alive).filter _
  rcases hs with ⟨ht, ha⟩ | ⟨ht, p, c, ha, hc, hp⟩ | ⟨ht, ha⟩ | ⟨c, ht, hc, ha⟩
  · rw [ha] at hsub
    exact Or.inl ⟨ht, List.eq_nil_of_sublist_nil hsub⟩
  · rw [ha] at hsub
    rcases sublist_singleton_cases hsub with h | h
    · exact Or.inl ⟨ht, h⟩
    · exact Or.inr (Or.inl ⟨ht, p, c, h, hc, hp⟩)
  · rw [ha] at hsub
    exact Or.inr (Or.inr (Or.inl ⟨ht, List.eq_nil_of_sublist_nil hsub⟩))
  · rw [ha] at hsub
    exact Or.inr (Or.inr (Or.inr ⟨c, ht, hc, List.eq_nil_of_sublist_nil hsub⟩))

theorem step_single (lib : RegexpLib) (s : Sys) (ev : Ev) (hs : Single s)
    (ho : orderly s ev = true) : Single (step lib s ev) := by
  unfold step
  by_cases hh : s.halted = true
  · simp only [hh, if_true]; exact hs
  · simp only [hh, if_false]
    cases ev with
    | clock t => exact hs.congr rfl rfl rfl rfl
    | notify event =>
      obtain ⟨h1, h2, h3, _, h5⟩ := handler_frame lib s event
      exact hs.congr h1 h2 h3 h5
    | notifyHead event =>
      obtain ⟨h1, h2, h3, _, h5⟩ := handlerHead_frame lib s event
      exact hs.congr h1 h2 h3 h5
    | notifyTail =>
      obtain ⟨h1, h2, h3, _, h5⟩ := handlerTail_frame s
      exact hs.congr h1 h2 h3 h5
    | expire i o =>
      simp only [orderly, List.isEmpty_iff] at ho
      simp only [expire]
      cases hi : s.timers[i]? with
      | none => exact hs
      | some e =>
        by_cases hcl : e.closed = true
        · simp only [hcl, if_true]; exact hs
        · simp only [hcl, if_false]
          exact Build_single { s with timers := closeEntry s.timers i }
            o ho (hs.congr rfl rfl rfl rfl)
    | go k ok => exact runTask_single s k ok hs
    | exit pid => exact exit_single s pid hs

theorem Run_single (goos cwd name : String) (watchErr : Option String) (o : Outcome) :
    Single (Run goos cwd name watchErr o) := by
  have hboot : Single (boot goos cwd name) := Or.inl ⟨rfl, rfl⟩
  unfold Run
  cases watchErr with
  | some e => exact hboot.congr rfl rfl rfl rfl
  | none => exact Build_single _ o rfl hboot

theorem run_single (lib : RegexpLib) (evs : List Ev) :
    ∀ s : Sys, Single s → sequential lib s evs = true → Single (run lib s evs) := by
  induction evs with
  | nil => intro s hs _; exact hs
  | cons ev evs ih =>
    intro s hs hseq
    simp only [sequential, Bool.and_eq_true] at hseq
    exact ih (step lib s ev) (step_single lib s ev hs hseq.1) hseq.2

/-- C6 (as amended): in every state reached from `Run` by clock ticks,
notifications, timer expiries, goroutine runs and instance exits, provided
every timer expiry finds the goroutines of the previous restart already run,
at most one spawned instance is alive to which no kill signal has been
delivered, and it is the instance of the command the app holds.  Instances
that have been signalled may still be alive beside it: `Kill` does not wait
for them to exit. -/
theorem at_most_one_unsignalled_instance (lib : RegexpLib) (goos cwd name : String)
    (watchErr : Option String) (o : Outcome) (evs : List Ev)
    (hseq : sequential lib (Run goos cwd name watchErr o) evs = true) :
    (unsignalled (run lib (Run goos cwd name watchErr o) evs)).length ≤ 1 ∧
      ∀ p ∈ unsignalled (run lib (Run goos cwd name watchErr o) evs),
        (run lib (Run goos cwd name watchErr o) evs).app.instance? = some p :=
  ⟨(run_single lib evs _ (Run_single goos cwd name watchErr o) hseq).length_le,
    (run_single lib evs _ (Run_single goos cwd name watchErr o) hseq).held⟩

/-- C6 (witness): first build, start of instance 1, a write, the timer build
that signals instance 1, and the start of instance 3. -/
theorem at_most_one_unsignalled_instance_witness :
    (unsignalled (run goRegexp (Run "linux" "/proj" "proj" none ⟨true, "", false⟩)
      [Ev.go 0 true, Ev.go 0 true, Ev.notify mainWrite, Ev.clock 1000,
        Ev.expire 0 ⟨true, "", false⟩, Ev.go 0 true, Ev.go 0 true])).length ≤ 1 :=
  (at_most_one_unsignalled_instance goRegexp "linux" "/proj" "proj" none ⟨true, "", false⟩
    [Ev.go 0 true, Ev.go 0 true, Ev.notify mainWrite, Ev.clock 1000,
      Ev.expire 0 ⟨true, "", false⟩, Ev.go 0 true, Ev.go 0 true] (by decide)).1

/-- C6 (counterexample): a run in which every goroutine runs before the next
build.  The timer build sends the kill signal to instance 1 and launches
`Start` without waiting for the instance to exit; instance 3 is spawned while
instance 1 is still alive. -/
theorem old_and_new_instance_alive :
    sequential goRegexp (Run "linux" "/proj" "proj" none ⟨true, "", false⟩)
        [Ev.go 0 true, Ev.go 0 true, Ev.notify mainWrite, Ev.clock 1000,
          Ev.expire 0 ⟨true, "", false⟩, Ev.go 0 true, Ev.go 0 true] = true ∧
      (run goRegexp (Run "linux" "/proj" "proj" none ⟨true, "", false⟩)
        [Ev.go 0 true, Ev.go 0 true, Ev.notify mainWrite, Ev.clock 1000,
          Ev.expire 0 ⟨true, "", false⟩, Ev.go 0 true, Ev.go 0 true]).alive = [1, 3] ∧
      (run goRegexp (Run "linux" "/proj" "proj" none ⟨true, "", false⟩)
        [Ev.go 0 true, Ev.go 0 true, Ev.notify mainWrite, Ev.clock 1000,
          Ev.expire 0 ⟨true, "", false⟩, Ev.go 0 true, Ev.go 0 true]).signalled = [1] := by
  decide

/-- Why the amended C6 asks for goroutines that have run: when the timer
build runs while the `Start` launched by the first build has not run yet,
`Kill` finds no command, both `Start` goroutines run afterwards, and the
instances 2 and 3 are alive together with no kill signal sent to either. -/
theorem two_unsignalled_instances_when_start_is_late :
    sequential goRegexp (Run "linux" "/proj" "proj" none ⟨true, "", false⟩)
        [Ev.notify mainWrite, Ev.clock 1000, Ev.expire 0 ⟨true, "", false⟩, Ev.go 0 true,
          Ev.go 0 true, Ev.go 0 true, Ev.go 0 true] = false ∧
      unsignalled (run goRegexp (Run "linux" "/proj" "proj" none ⟨true, "", false⟩)
        [Ev.notify mainWrite, Ev.clock 1000, Ev.expire 0 ⟨true, "", false⟩, Ev.go 0 true,
          Ev.go 0 true, Ev.go 0 true, Ev.go 0 true]) = [2, 3] := by
  decide

/-! ## Pids are not reused -/

theorem PidsFresh.transfer {s s2 : Sys} (h : PidsFresh s) (ha : s2.alive = s.alive)
    (hg : s2.signalled = s.signalled) (hn : s2.nextId = s.nextId) : PidsFresh s2 := by
  unfold PidsFresh at *
  rw [ha, hg, hn]
  exact h

theorem ProcessKill_fresh (s : Sys) (pid : Nat) (d : Bool) (h : PidsFresh s) :
    PidsFresh (ProcessKill s pid d).1 := by
  unfold ProcessKill
  by_cases hal : pid ∈ s.alive
  · cases d with
    | true => simpa [hal] using h
    | false =>
      simp only [hal, if_true, Bool.false_eq_true, if_false]
      obtain ⟨h1, h2, h3⟩ := h
      refine ⟨h1, ?_, h3⟩
      intro p hp
      simp only [List.mem_append, List.mem_singleton] at hp
      rcases hp with hp | hp
      · exact h2 p hp
      · rw [hp]; exact h1 pid hal
  · simpa [hal] using h

theorem Kill_fresh (s : Sys) (d : Bool) (h : PidsFresh s) : PidsFresh (App.Kill s d) := by
  cases hi : s.app.instance? with
  | none => rw [Kill_of_no_instance s d hi]; exact h
  | some pid =>
    rw [Kill_of_instance s d pid hi]
    obtain ⟨_, h2, h3, h4, _⟩ := killBranch_fields
      (ProcessKill ((s.emit (Action.logKill s.app.Name)).emit (Action.signalKill pid))
        pid d).1
      (ProcessKill ((s.emit (Action.logKill s.app.Name)).emit (Action.signalKill pid))
        pid d).2
    have hs2 : PidsFresh ((s.emit (Action.logKill s.app.Name)).emit (Action.signalKill pid)) :=
      h.transfer rfl rfl rfl
    exact (ProcessKill_fresh
      ((s.emit (Action.logKill s.app.Name)).emit (Action.signalKill pid)) pid d hs2).transfer
      h2 h3 h4

theorem Build_fresh (s : Sys) (o : Outcome) (h : PidsFresh s) : PidsFresh (App.Build s o) := by
  unfold App.Build
  cases o.buildOk with
  | false =>
    simp only [Bool.not_false, if_true]
    exact h.transfer rfl rfl rfl
  | true =>
    simp only [Bool.not_true, Bool.false_eq_true, if_false, App.Restart]
    have hk := Kill_fresh ((s.emit (Action.logBuild s.app.Name)).emit
      (Action.execBuild "go" (buildArgs s.goos s.app) "GOGC=off")) o.killDenied
      (h.transfer rfl rfl rfl)
    split
    · exact hk
    · exact hk.transfer rfl rfl rfl

theorem runTask_fresh (s : Sys) (k : Nat) (ok : Bool) (h : PidsFresh s) :
    PidsFresh (runTask s k ok) := by
  unfold runTask
  cases hk : s.tasks[k]? with
  | none => exact h
  | some t =>
    obtain ⟨h1, h2, h3⟩ := h
    cases t with
    | start =>
      refine ⟨fun p hp => Nat.lt_succ_of_lt (h1 p hp), fun p hp => Nat.lt_succ_of_lt (h2 p hp),
        h3⟩
    | run cmd path =>
      cases ok with
      | false => exact ⟨h1, h2, h3⟩
      | true =>
        have hf : PidsFresh { s with alive := s.alive ++ [s.nextId], nextId := s.nextId + 1 } := by
          refine ⟨?_, fun p hp => Nat.lt_succ_of_lt (h2 p hp), ?_⟩
          · intro p hp
            simp only [List.mem_append, List.mem_singleton] at hp
            rcases hp with hp | hp
            · exact Nat.lt_succ_of_lt (h1 p hp)
            · rw [hp]; exact Nat.lt_succ_self _
          · refine List.nodup_append.2 ⟨h3, List.nodup_singleton _, ?_⟩
            intro a ha hb
            simp only [List.mem_singleton] at hb
            rw [hb] at ha
            exact Nat.lt_irrefl _ (h1 _ ha)
        simp only [CmdRun, Bool.not_true, Bool.false_eq_true, if_false, Sys.emit]
        split
        · split
          · exact hf.transfer rfl rfl rfl
          · exact hf.transfer rfl rfl rfl
        · exact hf.transfer rfl rfl rfl

theorem step_fresh (lib : RegexpLib) (s : Sys) (ev : Ev) (h : PidsFresh s) :
    PidsFresh (step lib s ev) := by
  unfold step
  by_cases hh : s.halted = true
  · simp only [hh, if_true]; exact h
  · simp only [hh, if_false]
    cases ev with
    | clock t => exact h.transfer rfl rfl rfl
    | notify event =>
      obtain ⟨_, h2, h3, h4, _⟩ := handler_frame lib s event
      exact h.transfer h2 h3 h4
    | notifyHead event =>
      obtain ⟨_, h2, h3, h4, _⟩ := handlerHead_frame lib s event
      exact h.transfer h2 h3 h4
    | notifyTail =>
      obtain ⟨_, h2, h3, h4, _⟩ := handlerTail_frame s
      exact h.transfer h2 h3 h4
    | expire i o =>
      simp only [expire]
      cases hi : s.timers[i]? with
      | none => exact h
      | some e =>
        by_cases hcl : e.closed = true
        · simp only [hcl, if_true]; exact h
        · simp only [hcl, if_false]
          exact Build_fresh { s with timers := closeEntry s.timers i } o (h.transfer rfl rfl rfl)
    | go k ok => exact runTask_fresh s k ok h
    | exit pid =>
      obtain ⟨h1, h2, h3⟩ := h
      exact ⟨fun p hp => h1 p (List.mem_of_mem_erase hp), h2, h3.erase pid⟩

/-- In every state reached from `Run`, whatever the schedule, the pids of the
live and of the signalled instances are below the next pid to be handed out
and no pid is alive twice: an instance that is spawned is never taken for one
that has already been signalled. -/
theorem pids_fresh_of_run (lib : RegexpLib) (goos cwd name : String)
    (watchErr : Option String) (o : Outcome) (evs : List Ev) :
    PidsFresh (run lib (Run goos cwd name watchErr o) evs) := by
  have hboot : PidsFresh (boot goos cwd name) := by
    refine ⟨?_, ?_, List.nodup_nil⟩ <;> intro p hp <;> cases hp
  have hrun : PidsFresh (Run goos cwd name watchErr o) := by
    unfold Run
    cases watchErr with
    | some e => exact hboot.transfer rfl rfl rfl
    | none => exact Build_fresh _ o hboot
  have hall : ∀ (l : List Ev) (s : Sys), PidsFresh s → PidsFresh (run lib s l) := by
    intro l
    induction l with
    | nil => intro s hs; exact hs
    | cons ev l ih => intro s hs; exact ih (step lib s ev) (step_fresh lib s ev hs)
  exact hall evs _ hrun

end GfRun
